import Mathlib

/-!
Verification of the `pfcards` web scrapers
(`Pathfinder_Spells/web_scrape.py` and `Pathfinder_Magic_Items/web_scrape.py`)
against their natural-language specification.

Strings are modelled as `List Char` (Python `str` is a sequence of code
points, and Lean `String` is a wrapper around `List Char`).  Each Python
helper is translated into a Lean function of the same name where possible.
Regular-expression substitutions in the source all use concrete patterns,
so each one is embedded as a dedicated structural scan that mirrors
`re.sub`'s leftmost non-overlapping semantics.  Code that can raise a
Python exception is embedded with `Except`; emitted `warn` diagnostics are
returned alongside results as a list of messages.
-/

/-! ## Generic string helpers (Python `str` primitives) -/

/-- Python `str.lstrip(cset)`: drop leading characters belonging to `cset`. -/
def stripLead (cset : List Char) : List Char → List Char
| [] => []
| c :: rest => if c ∈ cset then stripLead cset rest else c :: rest

/-- Python `str.strip(cset)`: drop leading and trailing characters in `cset`. -/
def stripBoth (cset : List Char) (s : List Char) : List Char :=
  (stripLead cset (stripLead cset s).reverse).reverse

/-- The whitespace characters stripped by Python `str.strip()` (the ASCII
ones; the scraped pages contain no exotic Unicode whitespace). -/
def pyWs : List Char := [' ', '\t', '\n', '\r', '\x0b', '\x0c']

/-- Python `str.split(',')`. -/
def splitComma : List Char → List (List Char)
| [] => [[]]
| ',' :: rest => [] :: splitComma rest
| c :: rest =>
  match splitComma rest with
  | [] => [[c]]
  | g :: gs => (c :: g) :: gs

/-- Python `str.split(', ')` (two-character separator, leftmost
non-overlapping). -/
def splitCommaSpace : List Char → List (List Char)
| [] => [[]]
| ',' :: ' ' :: rest => [] :: splitCommaSpace rest
| c :: rest =>
  match splitCommaSpace rest with
  | [] => [[c]]
  | g :: gs => (c :: g) :: gs

/-- Python `pat in s` (substring containment). -/
def containsSub (pat : List Char) : List Char → Bool
| [] => pat.isPrefixOf ([] : List Char)
| s@(_ :: rest) => pat.isPrefixOf s || containsSub pat rest

/-- Python `s.find(pat)`, returning `none` instead of `-1`. -/
def findSub (pat : List Char) : List Char → Option Nat
| [] => if pat.isPrefixOf ([] : List Char) then some 0 else none
| s@(_ :: rest) => if pat.isPrefixOf s then some 0 else (findSub pat rest).map (· + 1)

/-- Python slice `s[a:b]` for non-negative bounds. -/
def sliceLC (s : List Char) (a b : Nat) : List Char := (s.take b).drop a

/-- `source[:source.find(" pg. ")]` as both scrapers compute it: cut at the
first occurrence of `" pg. "`; when absent, `find` yields `-1` and the
slice `source[:-1]` drops the final character. -/
def sliceToPg (s : List Char) : List Char :=
  match findSub " pg. ".data s with
  | some i => s.take i
  | none => s.take (s.length - 1)

/-- Python `''.join(l)`. -/
def joinL : List (List Char) → List Char
| [] => []
| s :: rest => s ++ joinL rest

/-- Python `sep.join(l)`. -/
def joinSep (sep : List Char) : List (List Char) → List Char
| [] => []
| [s] => s
| s :: rest => s ++ sep ++ joinSep sep rest

/-- Python `str(i)` for an `int`. -/
def intStr (i : Int) : List Char := (toString i).data

/-- Strict lexicographic comparison of strings by code point, as Python
`<` on `str`. -/
def lexLt : List Char → List Char → Bool
| [], [] => false
| [], _ :: _ => true
| _ :: _, [] => false
| a :: as, b :: bs => if a.val < b.val then true else if b.val < a.val then false else lexLt as bs

/-- Insert into an already `lexLt`-sorted list, keeping it sorted. -/
def insSorted (x : List Char) : List (List Char) → List (List Char)
| [] => [x]
| y :: ys => if lexLt y x then y :: insSorted x ys else x :: y :: ys

/-- Python `sorted` on a list of strings. -/
def sortStr : List (List Char) → List (List Char)
| [] => []
| x :: rest => insSorted x (sortStr rest)

/-! ## The `texify` escaping chain

`texify` appears verbatim in both scrapers
(`Pathfinder_Spells/web_scrape.py:414` and
`Pathfinder_Magic_Items/web_scrape.py:286`).  Every regex pattern in it is
a single character, so each `re.sub` is a structural scan. -/

/-- `re.sub('\r', '', text)`. -/
def subCR : List Char → List Char
| '\r' :: rest => subCR rest
| c :: rest => c :: subCR rest
| [] => []

/-- `re.sub('–', '$-$', text)`. -/
def subMinus : List Char → List Char
| '–' :: rest => '$' :: '-' :: '$' :: subMinus rest
| c :: rest => c :: subMinus rest
| [] => []

/-- `re.sub('—', '--', text)` (U+2014 em-dash). -/
def subDash : List Char → List Char
| '—' :: rest => '-' :: '-' :: subDash rest
| c :: rest => c :: subDash rest
| [] => []

/-- `re.sub('’', "'", text)`. -/
def subApos : List Char → List Char
| '’' :: rest => '\'' :: subApos rest
| c :: rest => c :: subApos rest
| [] => []

/-- `re.sub('“', "''", text)`. -/
def subLQuote : List Char → List Char
| '“' :: rest => '\'' :: '\'' :: subLQuote rest
| c :: rest => c :: subLQuote rest
| [] => []

/-- `re.sub('”', "''", text)`. -/
def subRQuote : List Char → List Char
| '”' :: rest => '\'' :: '\'' :: subRQuote rest
| c :: rest => c :: subRQuote rest
| [] => []

/-- `re.sub(r'(?<!\\)%', r'\\%', text)`.  The lookbehind inspects the
character preceding the match in the input string, carried here in
`prev` (`none` at the start of the string). -/
def escPct : Option Char → List Char → List Char
| _, [] => []
| prev, c :: rest => (if c = '%' ∧ prev ≠ some '\\' then ['\\', '%'] else [c]) ++ escPct (some c) rest

/-- `text.replace('\n', '\\\\')` (the Python literal denotes two
backslash characters). -/
def subNewline : List Char → List Char
| '\n' :: rest => '\\' :: '\\' :: subNewline rest
| c :: rest => c :: subNewline rest
| [] => []

/-- `texify(text)`: the eight substitutions applied in source order. -/
def texify (s : List Char) : List Char :=
  subNewline (escPct none (subRQuote (subLQuote (subApos (subDash (subMinus (subCR s)))))))

/-! ## Document model

Parsed HTML is a tree of text leaves (`NavigableString`) and elements
(`Tag` with a name and children).  The document region handed to the
extractors is the flat list of the data `span`'s child nodes; on the
scraped pages the label tags sit at the top level of that sequence, so
BeautifulSoup sibling traversal is list traversal and `find` within the
span locates top-level nodes.  Attributes are not modelled (the scrapers
never read them). -/

inductive Node where
| text : List Char → Node
| elem : List Char → List Node → Node

mutual

/-- `tag.text`: concatenation of every descendant string. -/
def nodeText : Node → List Char
| .text s => s
| .elem _ cs => nodesText cs

def nodesText : List Node → List Char
| [] => []
| n :: ns => nodeText n ++ nodesText ns

end

mutual

/-- Python `str(node)`: a `NavigableString` renders as itself, a `Tag`
as its HTML serialisation (attributes are not modelled). -/
def pyStr : Node → List Char
| .text s => s
| .elem nm cs => '<' :: (nm ++ '>' :: pyStrL cs) ++ '<' :: '/' :: (nm ++ ['>'])

def pyStrL : List Node → List Char
| [] => []
| n :: ns => pyStr n ++ pyStrL ns

end

/-- `span.find(tagname, string=label)` restricted to the top level of the
region: index of the first `<tagname>` whose single child is the text
`label`. -/
def findLabeled (tagname label : List Char) : List Node → Option Nat
| [] => none
| .elem nm [.text s] :: rest =>
  if nm = tagname ∧ s = label then some 0 else (findLabeled tagname label rest).map (· + 1)
| _ :: rest => (findLabeled tagname label rest).map (· + 1)

mutual

/-- `region.find(name)` / attribute access such as `span.h1`: first
matching element in document order (a node itself, then its children,
then later siblings). -/
def findElemN (nm : List Char) : Node → Option Node
| .text _ => none
| .elem n cs => if n = nm then some (.elem n cs) else findElemL nm cs

def findElemL (nm : List Char) : List Node → Option Node
| [] => none
| x :: rest =>
  match findElemN nm x with
  | some r => some r
  | none => findElemL nm rest

end

/-! ## JSON records -/

/-- A value stored in the output dictionary: a string, an `int` (the
single-level summary), the nested classes dictionary, or `None`. -/
inductive JValue where
| s : List Char → JValue
| n : Int → JValue
| obj : List (List Char × Int) → JValue
| null
deriving DecidableEq

/-- The output dictionary, in insertion order. -/
abbrev Record := List (List Char × JValue)

/-- Dictionary lookup by key. -/
def recLookup (k : List Char) : Record → Option JValue
| [] => none
| (k', v) :: rest => if k' = k then some v else recLookup k rest

/-- The key/value pairs contributed by `if x is not None: json[k] = x`. -/
def optS (k : List Char) : Option (List Char) → Record
| some v => [(k, .s v)]
| none => []

/-- An unconditional `json[k] = x` where `x : Optional[str]`. -/
def jv : Option (List Char) → JValue
| some v => .s v
| none => .null

/-! ## Shared pieces of both scrapers

`abbreviate`, `_parse_basic_text`, `_ul_process` and `htmltable2latex`
appear with identical bodies in both source files; they are embedded once.
The abbreviation tables differ (the spells module also lists
"Adventurer's Guide"), so each namespace carries its own table. -/

/-- Python dict indexing `d[k]`, raising `KeyError` when absent. -/
def dictGet (d : List (List Char × List Char)) (k : List Char) : Except (List Char) (List Char) :=
  match d with
  | [] => .error "KeyError".data
  | (k', v) :: rest => if k' = k then .ok v else dictGet rest k

/-- The diagnostic `"Could not abbreviate '{0}'".format(name)`. -/
def abbrevMsg (name : List Char) : List Char :=
  "Could not abbreviate '".data ++ name ++ "'".data

/-- `abbreviate` over a given table: the short code on a hit; on a
`KeyError` the name passes through with one diagnostic. -/
def abbreviateWith (table : List (List Char × List Char)) (name : List Char) :
    List Char × List (List Char) :=
  match dictGet table name with
  | .ok v => (v, [])
  | .error _ => (name, [abbrevMsg name])

/-- The diagnostic of `_get_text_from_simple_tag`:
`"Could not find {0} tag. Skipping element '{1}'."`. -/
def simpleTagMsg (label warnname : List Char) : List Char :=
  "Could not find ".data ++ label ++ " tag. Skipping element '".data ++ warnname ++ "'.".data

/-- `_parse_basic_text`'s diagnostic: the default message
`"Found unknown tag '{0}'."` formatted with `elem.text`. -/
def unknownTagMsg (t : List Char) : List Char :=
  "Found unknown tag '".data ++ t ++ "'.".data

/-- The description walkers' diagnostic
`"Found unknown tag '{0}' in Description."` formatted with `elem.name`. -/
def unknownDescMsg (nm : List Char) : List Char :=
  "Found unknown tag '".data ++ nm ++ "' in Description.".data

/-- `'\\textbf{{{0}}}'.format(text)` (a literal backslash-textbf wrapper;
the doubled braces in the Python format string denote literal braces). -/
def texbf (t : List Char) : List Char := "\\textbf\x7b".data ++ t ++ "\x7d".data

/-- `'\\textit{{{0}}}'.format(text)`. -/
def texit (t : List Char) : List Char := "\\textit\x7b".data ++ t ++ "\x7d".data

/-- `_parse_basic_text(item)`: flatten one item of basic formatted text.
Calling it on a `NavigableString` raises `AttributeError` (strings have
no `.children`). -/
def parseBasicList : List Node → List Char × List (List Char)
| [] => ([], [])
| .text s :: rest =>
  let (t, ws) := parseBasicList rest
  (s ++ t, ws)
| .elem nm cs :: rest =>
  let (t, ws) := parseBasicList rest
  if nm = "b".data then (texbf (nodesText cs) ++ t, ws)
  else if nm = "i".data then (texit (nodesText cs) ++ t, ws)
  else (nodesText cs ++ t, unknownTagMsg (nodesText cs) :: ws)

def parseBasicText : Node → Except (List Char) (List Char × List (List Char))
| .text _ => .error "AttributeError: NavigableString has no attribute children".data
| .elem _ cs => .ok (parseBasicList cs)

/-- `_parse_basic_text` mapped over a list of sibling items. -/
def itemTexts : List Node → Except (List Char) (List (List Char) × List (List Char))
| [] => .ok ([], [])
| i :: rest => do
  let (t, w1) ← parseBasicText i
  let (ts, ws) ← itemTexts rest
  .ok (t :: ts, w1 ++ ws)

/-- `_ul_process(ul)` applied to the children of the `<ul>` element. -/
def ulProcess (cs : List Node) : Except (List Char) (List Char × List (List Char)) := do
  let (items, ws) ← itemTexts cs
  .ok ('\n' :: joinSep "\n".data items ++ ['\n'], ws)

/-- One row of `htmltable2latex`: entries joined by `&`, then a `\\`
row break. -/
def tableRows : List Node → Except (List Char) (List Char × List (List Char))
| [] => .ok ([], [])
| .text _ :: rest => tableRows rest
| .elem _ rcs :: rest => do
  let (entries, w1) ← itemTexts rcs
  let (restTxt, ws) ← tableRows rest
  .ok (joinSep "&".data entries ++ "\\\\".data ++ restTxt, w1 ++ ws)

/-- `htmltable2latex(table)` applied to the children of the `<table>`
element.  `table.tr` being absent makes `len(table.tr.contents)` raise. -/
def tableToLatex (cs : List Node) : Except (List Char) (List Char × List (List Char)) :=
  match findElemL "tr".data cs with
  | none => .error "AttributeError: NoneType has no attribute contents".data
  | some tr =>
    let ncols := match tr with | .text _ => 0 | .elem _ tcs => tcs.length
    do
      let (rows, ws) ← tableRows cs
      .ok ("\\begin\x7btabular\x7d".data ++ ('\x7b' :: List.replicate ncols 'c' ++ ['\x7d'])
           ++ rows ++ "\\end\x7btabular\x7d".data, ws)

/-! ## The spells scraper (`Pathfinder_Spells/web_scrape.py`) -/

namespace Spells

/-- The module-level `abbreviations` dict of the spells scraper
(insertion order preserved; this table also lists "Adventurer's Guide"). -/
def abbreviations : List (List Char × List Char) := [
  ("PRPG Core Rulebook".data, "PF Core".data),
  ("Ultimate Equipment".data, "PF Ult Equip".data),
  ("Ultimate Magic".data, "PF Ult Magic".data),
  ("Ultimate Combat".data, "PF Ult Combat".data),
  ("Advanced Player's Guide".data, "PF Adv Play".data),
  ("Advanced Class Guide".data, "PF Adv Class".data),
  ("Pathfinder Society Field Guide".data, "PFSoc Field Guide".data),
  ("Pathfinder Society Primer".data, "PFSoc Primer".data),
  ("Cheliax, Empire of Devils".data, "PFC Cheliax".data),
  ("Champions of Purity".data, "PFPC Champions of Purity".data),
  ("Advanced Class Origins".data, "PFPC Adv Class Origins".data),
  ("Magic Tactics Toolbox".data, "PFPC Magic Tactics Toolbox".data),
  ("Monster Codex".data, "PF Monster Codex".data),
  ("Adventurer's Guide".data, "PF Adventurer Guide".data),
  ("adept".data, "ade".data),
  ("alchemist".data, "alc".data),
  ("antipaladin".data, "apal".data),
  ("arcanist".data, "arc".data),
  ("bard".data, "bar".data),
  ("bloodrager".data, "brag".data),
  ("cleric".data, "cle".data),
  ("druid".data, "dru".data),
  ("hunter".data, "hun".data),
  ("inquisitor".data, "inq".data),
  ("investigator".data, "inv".data),
  ("magus".data, "mag".data),
  ("medium".data, "med".data),
  ("mesmerist".data, "mes".data),
  ("occultist".data, "occ".data),
  ("oracle".data, "ora".data),
  ("paladin".data, "pal".data),
  ("psychic".data, "psy".data),
  ("ranger".data, "ran".data),
  ("redmantisassassin".data, "rma".data),
  ("shaman".data, "sha".data),
  ("skald".data, "ska".data),
  ("sorcerer".data, "sor".data),
  ("spiritualist".data, "spi".data),
  ("summoner".data, "sum".data),
  ("summoner (unchained)".data, "sumU".data),
  ("warpriest".data, "war".data),
  ("witch".data, "wit".data),
  ("wizard".data, "wiz".data)]

/-- `abbreviate(name)` of the spells scraper. -/
def abbreviate (name : List Char) : List Char × List (List Char) :=
  abbreviateWith abbreviations name

/-- `_name_from_span`: `span.h1.text.strip()`; a missing `<h1>` raises
`AttributeError`. -/
def nameFromSpan (span : List Node) : Except (List Char) (List Char) :=
  match findElemL "h1".data span with
  | none => .error "AttributeError: NoneType has no attribute text".data
  | some h => .ok (stripBoth pyWs (nodeText h))

/-- The source-collection loop of `_source_from_span`: walk the siblings
after the `<b>Source</b>` tag, keep the text of `<a>` links, stop at the
next `<b>`. -/
def collectSources : List Node → List (List Char)
| [] => []
| .text _ :: rest => collectSources rest
| .elem nm cs :: rest =>
  if nm = "b".data then []
  else if nm = "a".data then nodesText cs :: collectSources rest
  else collectSources rest

/-- `_source_from_span` (spells): "PF Core" when "PRPG Core Rulebook"
occurs in the concatenated sources, else the abbreviation of the FIRST
listed source with its page reference cut off. -/
def sourceFromSpan (span : List Node) : Option (List Char) × List (List Char) :=
  match findLabeled "b".data "Source".data span with
  | none => (none, ["Could not find Source tag. Skipping element 'source'".data])
  | some i =>
    match collectSources (List.drop (i + 1) span) with
    | [] => (none, ["No sources detected. Skipping element 'source'.".data])
    | s0 :: rest =>
      if containsSub "PRPG Core Rulebook".data (joinL (s0 :: rest)) then
        (some "PF Core".data, [])
      else
        let (a, w) := abbreviate (sliceToPg s0)
        (some a, w)

/-- The text-collection loop of `_school_from_span`: everything up to the
next bold tag, tags flattened to their text. -/
def schoolCollect : List Node → List (List Char)
| [] => []
| .text s :: rest => s :: schoolCollect rest
| .elem nm cs :: rest =>
  if nm = "b".data then [] else nodesText cs :: schoolCollect rest

/-- `school.replace('seetext', 'see text')`. -/
def subSeeText : List Char → List Char
| 's' :: 'e' :: 'e' :: 't' :: 'e' :: 'x' :: 't' :: rest => "see text".data ++ subSeeText rest
| c :: rest => c :: subSeeText rest
| [] => []

/-- `school.replace(',', ', ')`. -/
def subCommaSpace : List Char → List Char
| ',' :: rest => ',' :: ' ' :: subCommaSpace rest
| c :: rest => c :: subCommaSpace rest
| [] => []

/-- The diagnostic of a missing School tag. -/
def schoolMsg : List Char := "Could not find School tag. Skipping element 'school'.".data

/-- `_school_from_span`. -/
def schoolFromSpan (span : List Node) : Option (List Char) × List (List Char) :=
  match findLabeled "b".data "School".data span with
  | none => (none, [schoolMsg])
  | some i =>
    let school := stripBoth " ;".data (joinL (schoolCollect (List.drop (i + 1) span)))
    let school := school.filter (· ≠ ' ')
    let school := subSeeText school
    (some (subCommaSpace school), [])

/-- `_get_text_from_simple_tag(span, string, warnname)`: `str` of the node
following the bold tag (`str(None)` is the string "None" when the tag is
the last node). -/
def getTextSimple (span : List Node) (label : List Char) (warnname : Option (List Char)) :
    Option (List Char) × List (List Char) :=
  match findLabeled "b".data label span with
  | none =>
    (none, match warnname with | some w => [simpleTagMsg label w] | none => [])
  | some i =>
    match (List.drop (i + 1) span).head? with
    | none => (some "None".data, [])
    | some sib => (some (pyStr sib), [])

/-- One entry of the Level list: `level = int(item[-1])` (`IndexError` on
an empty entry, `ValueError` when the last character is not a digit —
Python `int` also accepts non-ASCII decimal digits, which never occur in
this data), `cls = item[0:-1].strip()`. -/
def parseClassItem (item : List Char) : Except (List Char) (List Char × Int) :=
  match item.getLast? with
  | none => .error "IndexError: string index out of range".data
  | some c =>
    if c.isDigit then .ok (stripBoth pyWs item.dropLast, ((c.toNat - '0'.toNat : Nat) : Int))
    else .error "ValueError: invalid literal for int".data

/-- Python dict assignment `d[k] = v`: update in place, append when new. -/
def dictInsert (k : List Char) (v : Int) : List (List Char × Int) → List (List Char × Int)
| [] => [(k, v)]
| (k', v') :: rest => if k' = k then (k', v) :: rest else (k', v') :: dictInsert k v rest

/-- The dict built by the loop of `_classes_from_span`. -/
def buildClassDict (items : List (List Char × Int)) : List (List Char × Int) :=
  items.foldl (fun d kv => dictInsert kv.1 kv.2 d) []

/-- The processing `_classes_from_span` applies to the Level text: split
on commas, parse every entry, build the dict (the first failing entry
propagates its exception). -/
def classesOfText (text : List Char) : Except (List Char) (List (List Char × Int)) := do
  let items ← (splitComma text).mapM parseClassItem
  .ok (buildClassDict items)

/-- `_classes_from_span`. -/
def classesFromSpan (span : List Node) :
    Except (List Char) (Option (List (List Char × Int)) × List (List Char)) :=
  match getTextSimple span "Level".data (some "classes".data) with
  | (none, w) => .ok (none, w)
  | (some text, _) => do
    let cd ← classesOfText text
    .ok (some cd, [])

/-- First-occurrence-ordered distinct values of a list. -/
def addUniq (acc : List Int) (v : Int) : List Int := if v ∈ acc then acc else acc ++ [v]

def uniqVals (vals : List Int) : List Int := vals.foldl addUniq []

/-- `Counter(vals)`: each distinct value with its multiplicity, in
first-occurrence order. -/
def countsOf (vals : List Int) : List (Int × Nat) :=
  (uniqVals vals).map (fun v => (v, vals.count v))

/-- Stable insertion used by `most_common`: place after every entry with
a count at least as large. -/
def insMC (x : Int × Nat) : List (Int × Nat) → List (Int × Nat)
| [] => [x]
| y :: ys => if y.2 < x.2 then x :: y :: ys else y :: insMC x ys

/-- `Counter(...).most_common()`: sort by count, descending and stable
(CPython uses a stable `sorted` with `reverse=True`). -/
def mostCommon (counts : List (Int × Nat)) : List (Int × Nat) :=
  counts.foldl (fun acc x => insMC x acc) []

/-- `abbreviate` mapped over class names, collecting diagnostics. -/
def abbrevAll : List (List Char) → List (List Char) × List (List Char)
| [] => ([], [])
| k :: ks =>
  let (a, w) := abbreviate k
  let (rest, ws) := abbrevAll ks
  (a :: rest, w ++ ws)

/-- The group-building loop of `_level_from_classes`: for each remaining
level, the alphabetically sorted abbreviated class names joined by `/`,
then the level. -/
def levelGroups (classes : List (List Char × Int)) : List Int → List (List Char) × List (List Char)
| [] => ([], [])
| L :: Ls =>
  let (cl, w) := abbrevAll ((classes.filter (fun kv => kv.2 = L)).map (·.1))
  let grp := joinSep "/".data (sortStr cl) ++ ' ' :: intStr L
  let (rest, ws) := levelGroups classes Ls
  (grp :: rest, w ++ ws)

/-- `_level_from_classes(classes)`.  `counts[0] >= sum(counts)/2` compares
an `int` with a `float`; Python compares them exactly and for totals below
2^53 the float is exact, so it is `2*counts[0] >= sum(counts)`.  An empty
dict would raise `IndexError` on `level_counter[0]`. -/
def levelFromClasses (classes : List (List Char × Int)) :
    Except (List Char) (JValue × List (List Char)) :=
  match mostCommon (countsOf (classes.map (·.2))) with
  | [] => .error "IndexError: list index out of range".data
  | [x] => .ok (.n x.1, [])
  | x1 :: x2 :: xs =>
    let counts := (x1 :: x2 :: xs).map (·.2)
    let levels := (x1 :: x2 :: xs).map (·.1)
    let (mainLevel, restLevels) :=
      if 2 * x1.2 ≥ counts.sum ∧ x2.2 < x1.2 then (some x1.1, levels.tail)
      else (none, levels)
    let (grps, w) := levelGroups classes restLevels
    let leveltxt := joinSep ", ".data grps
    match mainLevel with
    | some m => .ok (.s (intStr m ++ " (".data ++ leveltxt ++ ")".data), w)
    | none => .ok (.s leveltxt, w)

/-- `_time_from_span`. -/
def timeFromSpan (span : List Node) : Option (List Char) × List (List Char) :=
  match getTextSimple span "Casting Time".data (some "time".data) with
  | (none, w) => (none, w)
  | (some t, _) => (some (texify (stripBoth " ;.".data t)), [])

/-- `re.sub(r'([VSMF)]), ', r'\1,', comp)`. -/
def subVSMF : List Char → List Char
| c :: ',' :: ' ' :: rest =>
  if c ∈ ['V', 'S', 'M', 'F', ')'] then c :: ',' :: subVSMF rest
  else c :: subVSMF (',' :: ' ' :: rest)
| c :: rest => c :: subVSMF rest
| [] => []

/-- `re.sub(r'([MF]) \(', r'\1(', comp)`. -/
def subMF : List Char → List Char
| c :: ' ' :: '(' :: rest =>
  if c ∈ ['M', 'F'] then c :: '(' :: subMF rest
  else c :: subMF (' ' :: '(' :: rest)
| c :: rest => c :: subMF rest
| [] => []

/-- `re.sub(r' gp', 'gp', comp)`. -/
def subGp : List Char → List Char
| ' ' :: 'g' :: 'p' :: rest => 'g' :: 'p' :: subGp rest
| c :: rest => c :: subGp rest
| [] => []

/-- `re.sub(r' lbs\.', 'lb', comp)` (the dot is escaped here). -/
def subLbsDot : List Char → List Char
| ' ' :: 'l' :: 'b' :: 's' :: '.' :: rest => 'l' :: 'b' :: subLbsDot rest
| c :: rest => c :: subLbsDot rest
| [] => []

/-- `_components_from_span`. -/
def componentsFromSpan (span : List Node) : Option (List Char) × List (List Char) :=
  match getTextSimple span "Components".data (some "components".data) with
  | (none, w) => (none, w)
  | (some t, _) =>
    let comp := texify (stripBoth " ;.".data t)
    (some (subLbsDot (subGp (subMF (subVSMF comp)))), [])

/-- `re.sub(r' ft.', 'ft', range)`: the unescaped dot matches ANY
character, which is dropped with the match. -/
def subFtDot : List Char → List Char
| ' ' :: 'f' :: 't' :: _ :: rest => 'f' :: 't' :: subFtDot rest
| c :: rest => c :: subFtDot rest
| [] => []

/-- `re.sub(' ft', 'ft', range)`. -/
def subFt : List Char → List Char
| ' ' :: 'f' :: 't' :: rest => 'f' :: 't' :: subFt rest
| c :: rest => c :: subFt rest
| [] => []

/-- `_range_from_span`. -/
def rangeFromSpan (span : List Node) : Option (List Char) × List (List Char) :=
  match getTextSimple span "Range".data (some "range".data) with
  | (none, w) => (none, w)
  | (some t, _) =>
    let r := texify (stripBoth " ;.".data t)
    if "close".data.isPrefixOf r then (some "close".data, [])
    else if "medium".data.isPrefixOf r then (some "medium".data, [])
    else if "long".data.isPrefixOf r then (some "long".data, [])
    else (some (subFt (subFtDot r)), [])

/-- `re.sub(r"levels?", "lvl", text)` (greedy: "levels" wins over
"level"). -/
def subLevels : List Char → List Char
| 'l' :: 'e' :: 'v' :: 'e' :: 'l' :: 's' :: rest => 'l' :: 'v' :: 'l' :: subLevels rest
| 'l' :: 'e' :: 'v' :: 'e' :: 'l' :: rest => 'l' :: 'v' :: 'l' :: subLevels rest
| c :: rest => c :: subLevels rest
| [] => []

/-- `text.replace(" per ", "/")`. -/
def subPerSlash : List Char → List Char
| ' ' :: 'p' :: 'e' :: 'r' :: ' ' :: rest => '/' :: subPerSlash rest
| c :: rest => c :: subPerSlash rest
| [] => []

/-- `re.sub(r'[ -]ft\.', 'ft', text)`. -/
def subFtSpDash : List Char → List Char
| c :: 'f' :: 't' :: '.' :: rest =>
  if c = ' ' ∨ c = '-' then 'f' :: 't' :: subFtSpDash rest
  else c :: subFtSpDash ('f' :: 't' :: '.' :: rest)
| c :: rest => c :: subFtSpDash rest
| [] => []

/-- `re.sub(r' lbs.', 'lb', text)`: the final dot is unescaped and
matches any character, dropped with the match. -/
def subLbsAny : List Char → List Char
| ' ' :: 'l' :: 'b' :: 's' :: _ :: rest => 'l' :: 'b' :: subLbsAny rest
| c :: rest => c :: subLbsAny rest
| [] => []

/-- `_ATE_from_span(span, ATE)`: no warn-name is passed, so a missing
label yields no diagnostic. -/
def ateFromSpan (span : List Node) (ate : List Char) : Option (List Char) :=
  match (getTextSimple span ate none).1 with
  | none => none
  | some t =>
    let text := texify (stripBoth " ;.".data t)
    some (subLbsAny (subFtSpDash (subPerSlash (subLevels text))))

def areaFromSpan (span : List Node) : Option (List Char) := ateFromSpan span "Area".data

/-- `_target_from_span` falls back to the synonym "Targets". -/
def targetFromSpan (span : List Node) : Option (List Char) :=
  match ateFromSpan span "Target".data with
  | some t => some t
  | none => ateFromSpan span "Targets".data

def effectFromSpan (span : List Node) : Option (List Char) := ateFromSpan span "Effect".data

/-- `duration.replace("min.", "min")`. -/
def subMinDot : List Char → List Char
| 'm' :: 'i' :: 'n' :: '.' :: rest => 'm' :: 'i' :: 'n' :: subMinDot rest
| c :: rest => c :: subMinDot rest
| [] => []

/-- `re.sub("minutes?", "min", duration)`. -/
def subMinutes : List Char → List Char
| 'm' :: 'i' :: 'n' :: 'u' :: 't' :: 'e' :: 's' :: rest => 'm' :: 'i' :: 'n' :: subMinutes rest
| 'm' :: 'i' :: 'n' :: 'u' :: 't' :: 'e' :: rest => 'm' :: 'i' :: 'n' :: subMinutes rest
| c :: rest => c :: subMinutes rest
| [] => []

/-- `_duration_from_span`: when the Duration label is absent the code
warns that it is skipping the element and then unconditionally calls
`duration.replace(...)` on `None`, raising `AttributeError` (the warning
is lost with the aborted record). -/
def durationFromSpan (span : List Node) : Except (List Char) (List Char) :=
  match ateFromSpan span "Duration".data with
  | none => .error "AttributeError: NoneType has no attribute replace".data
  | some d => .ok (subMinutes (subMinDot d))

/-- `save.replace("Reflex", "Ref")`. -/
def subReflex : List Char → List Char
| 'R' :: 'e' :: 'f' :: 'l' :: 'e' :: 'x' :: rest => 'R' :: 'e' :: 'f' :: subReflex rest
| c :: rest => c :: subReflex rest
| [] => []

/-- `save.replace("Fortitude", "Fort")`. -/
def subFortitude : List Char → List Char
| 'F' :: 'o' :: 'r' :: 't' :: 'i' :: 't' :: 'u' :: 'd' :: 'e' :: rest =>
  'F' :: 'o' :: 'r' :: 't' :: subFortitude rest
| c :: rest => c :: subFortitude rest
| [] => []

/-- `_save_from_span`: defaults to the literal "none" when absent. -/
def saveFromSpan (span : List Node) : List Char :=
  match (getTextSimple span "Saving Throw".data none).1 with
  | none => "none".data
  | some s => subFortitude (subReflex (stripBoth " ;.".data s))

/-- `_sr_from_span`: defaults to the literal "no" when absent. -/
def srFromSpan (span : List Node) : List Char :=
  match (getTextSimple span "Spell Resistance".data none).1 with
  | none => "no".data
  | some s => stripBoth " ;.".data s

/-- The description walk of `_description_from_span` (spells): stop at
h1/h2/h3, `<br>` becomes a line break, bold/italic are wrapped, lists and
tables are rendered, unknown tags flatten with a diagnostic. -/
def descWalk : List Node → Except (List Char) (List (List Char) × List (List Char))
| [] => .ok ([], [])
| .text s :: rest => do
  let (ts, ws) ← descWalk rest
  .ok (s :: ts, ws)
| .elem nm cs :: rest =>
  if nm = "h3".data ∨ nm = "h2".data ∨ nm = "h1".data then .ok ([], [])
  else if nm = "br".data then do
    let (ts, ws) ← descWalk rest
    .ok ("\\\\".data :: ts, ws)
  else if nm = "b".data then do
    let (ts, ws) ← descWalk rest
    .ok (texbf (nodesText cs) :: ts, ws)
  else if nm = "i".data then do
    let (ts, ws) ← descWalk rest
    .ok (texit (nodesText cs) :: ts, ws)
  else if nm = "ul".data then do
    let (t, w1) ← ulProcess cs
    let (ts, ws) ← descWalk rest
    .ok (t :: ts, w1 ++ ws)
  else if nm = "table".data then do
    let (t, w1) ← tableToLatex cs
    let (ts, ws) ← descWalk rest
    .ok (t :: ts, w1 ++ ws)
  else do
    let (ts, ws) ← descWalk rest
    .ok (nodesText cs :: ts, unknownDescMsg nm :: ws)

/-- `_description_from_span` (spells). -/
def descriptionFromSpan (span : List Node) :
    Except (List Char) (Option (List Char) × List (List Char)) :=
  match findLabeled "h3".data "Description".data span with
  | none => .ok (none, ["Could not find Description tag. Skipping element 'description'".data])
  | some i => do
    let (ts, ws) ← descWalk (List.drop (i + 1) span)
    .ok (some (texify (joinL ts)), ws)

/-- The combined diagnostic emitted when Area, Target and Effect are all
absent. -/
def noATEMsg : List Char := "No Area, Target or Effect found.".data

/-- `soup2dict` (spells), from the point where the non-empty data span has
been located (lines 104-146 of the source): assemble the record and the
diagnostics in emission order. -/
def soup2dict (span : List Node) : Except (List Char) (Record × List (List Char)) := do
  let name ← nameFromSpan span
  let (source, w1) := sourceFromSpan span
  let (school, w2) := schoolFromSpan span
  let (classes, w3) ← classesFromSpan span
  let (lvlRec, w4) ←
    match classes with
    | none => pure (([] : Record), ([] : List (List Char)))
    | some cd => do
      let (lv, w) ← levelFromClasses cd
      pure ([("classes".data, JValue.obj cd), ("level".data, lv)], w)
  let (time, w5) := timeFromSpan span
  let (comps, w6) := componentsFromSpan span
  let (rng, w7) := rangeFromSpan span
  let area := areaFromSpan span
  let target := targetFromSpan span
  let effect := effectFromSpan span
  let w8 := if area = none ∧ target = none ∧ effect = none then [noATEMsg] else []
  let dur ← durationFromSpan span
  let save := saveFromSpan span
  let sr := srFromSpan span
  let (desc, w9) ← descriptionFromSpan span
  let record := optS "name".data (some name) ++ optS "source".data source
      ++ optS "school".data school ++ lvlRec ++ optS "time".data time
      ++ optS "components".data comps ++ optS "range".data rng
      ++ [("area".data, jv area), ("target".data, jv target), ("effect".data, jv effect)]
      ++ [("duration".data, JValue.s dur), ("save".data, JValue.s save), ("sr".data, JValue.s sr)]
      ++ optS "description".data desc
  .ok (record, w1 ++ w2 ++ w3 ++ w4 ++ w5 ++ w6 ++ w7 ++ w8 ++ w9)

end Spells

/-! ## The magic-items scraper (`Pathfinder_Magic_Items/web_scrape.py`) -/

namespace Items

/-- The module-level `abbreviations` dict of the items scraper (it lacks
the "Adventurer's Guide" entry of the spells table). -/
def abbreviations : List (List Char × List Char) := [
  ("PRPG Core Rulebook".data, "PF Core".data),
  ("Ultimate Equipment".data, "PF Ult Equip".data),
  ("Ultimate Magic".data, "PF Ult Magic".data),
  ("Ultimate Combat".data, "PF Ult Combat".data),
  ("Advanced Player's Guide".data, "PF Adv Play".data),
  ("Advanced Class Guide".data, "PF Adv Class".data),
  ("Pathfinder Society Field Guide".data, "PFSoc Field Guide".data),
  ("Pathfinder Society Primer".data, "PFSoc Primer".data),
  ("Cheliax, Empire of Devils".data, "PFC Cheliax".data),
  ("Champions of Purity".data, "PFPC Champions of Purity".data),
  ("Advanced Class Origins".data, "PFPC Adv Class Origins".data),
  ("Magic Tactics Toolbox".data, "PFPC Magic Tactics Toolbox".data),
  ("Monster Codex".data, "PF Monster Codex".data),
  ("adept".data, "ade".data),
  ("alchemist".data, "alc".data),
  ("antipaladin".data, "apal".data),
  ("arcanist".data, "arc".data),
  ("bard".data, "bar".data),
  ("bloodrager".data, "brag".data),
  ("cleric".data, "cle".data),
  ("druid".data, "dru".data),
  ("hunter".data, "hun".data),
  ("inquisitor".data, "inq".data),
  ("investigator".data, "inv".data),
  ("magus".data, "mag".data),
  ("medium".data, "med".data),
  ("mesmerist".data, "mes".data),
  ("occultist".data, "occ".data),
  ("oracle".data, "ora".data),
  ("paladin".data, "pal".data),
  ("psychic".data, "psy".data),
  ("ranger".data, "ran".data),
  ("redmantisassassin".data, "rma".data),
  ("shaman".data, "sha".data),
  ("skald".data, "ska".data),
  ("sorcerer".data, "sor".data),
  ("spiritualist".data, "spi".data),
  ("summoner".data, "sum".data),
  ("summoner (unchained)".data, "sumU".data),
  ("warpriest".data, "war".data),
  ("witch".data, "wit".data),
  ("wizard".data, "wiz".data)]

/-- `abbreviate(name)` of the items scraper. -/
def abbreviate (name : List Char) : List Char × List (List Char) :=
  abbreviateWith abbreviations name

/-- `_name_from_span`: `span.h1.text.strip()`. -/
def nameFromSpan (span : List Node) : Except (List Char) (List Char) :=
  match findElemL "h1".data span with
  | none => .error "AttributeError: NoneType has no attribute text".data
  | some h => .ok (stripBoth pyWs (nodeText h))

/-- Python `str(tag.next_sibling)`: the node after index `i`, or the
string "None" when the tag is last. -/
def nextSibStr (span : List Node) (i : Nat) : List Char :=
  match (List.drop (i + 1) span).head? with
  | none => "None".data
  | some sib => pyStr sib

/-- `_source_from_span` (items): slice the span TEXT between "Source " and
"Aura", prefer "PF Core", otherwise abbreviate the LAST listed source.
`split` never returns an empty list, so `sources_raw[-1]` is total. -/
def sourceFromSpan (span : List Node) : Option (List Char) × List (List Char) :=
  let spantxt := nodesText span
  match findSub "Source ".data spantxt with
  | none => (none, ["We could not find 'Source '. Skipping element 'source'".data])
  | some s =>
    match findSub "Aura".data spantxt with
    | none => (none, ["We could not find 'Aura'. Skipping element 'source'".data])
    | some endind =>
      let slice := sliceLC spantxt (s + 7) endind
      if containsSub "PRPG Core Rulebook".data slice then (some "PF Core".data, [])
      else
        let sources_raw := splitCommaSpace slice
        let source := sliceToPg ((sources_raw.getLast?).getD [])
        let (a, w) := abbreviate source
        (some a, w)

/-- `_aura_from_span`: the span text between "Aura " and "CL", stripped of
spaces and semicolons.  No escaping is applied. -/
def auraFromSpan (span : List Node) : Option (List Char) × List (List Char) :=
  let spantxt := nodesText span
  match findSub "Aura ".data spantxt with
  | none => (none, ["We could not find 'Aura '. Skipping element 'aura'".data])
  | some s =>
    match findSub "CL".data spantxt with
    | none => (none, ["We could not find 'CL'. Skipping element 'aura'".data])
    | some endind => (some (stripBoth " ;".data (sliceLC spantxt (s + 5) endind)), [])

/-- `_CL_from_span`: the digits of the string after the `<b>CL</b>` tag
(`re.sub("[^0-9]", "", cl)`). -/
def clFromSpan (span : List Node) : Option (List Char) × List (List Char) :=
  match findLabeled "b".data "CL".data span with
  | none => (none, ["Could not find CL tag. Skipping element 'cl'".data])
  | some i => (some ((nextSibStr span i).filter (·.isDigit)), [])

/-- `_slot_from_span`: `slot[-1]` raises `IndexError` when the stripped
sibling text is empty. -/
def slotFromSpan (span : List Node) :
    Except (List Char) (Option (List Char) × List (List Char)) :=
  match findLabeled "b".data "Slot".data span with
  | none => .ok (none, ["Could not find Slot tag. Skipping element 'slot'".data])
  | some i =>
    let slot := stripBoth pyWs (nextSibStr span i)
    match slot.getLast? with
    | none => .error "IndexError: string index out of range".data
    | some lastc =>
      let slot := if lastc = ';' then slot.dropLast else slot
      .ok (some (if slot = "—".data then "--".data else slot), [])

/-- The collection loop of `_price_from_span`: siblings until the next
`<b>` or `<h3>`, tags flattened to their text. -/
def priceCollect : List Node → List (List Char)
| [] => []
| .text s :: rest => s :: priceCollect rest
| .elem nm cs :: rest =>
  if nm = "b".data ∨ nm = "h3".data then [] else nodesText cs :: priceCollect rest

/-- `_price_from_span`. -/
def priceFromSpan (span : List Node) :
    Except (List Char) (Option (List Char) × List (List Char)) :=
  match findLabeled "b".data "Price".data span with
  | none => .ok (none, ["Could not find Price tag. Skipping element 'price'".data])
  | some i =>
    let price := stripBoth pyWs (joinL (priceCollect (List.drop (i + 1) span)))
    match price.getLast? with
    | none => .error "IndexError: string index out of range".data
    | some lastc => .ok (some (if lastc = ';' then price.dropLast else price), [])

/-- `_weight_from_span`. -/
def weightFromSpan (span : List Node) : Option (List Char) × List (List Char) :=
  match findLabeled "b".data "Weight".data span with
  | none => (none, ["Could not find Weight tag. Skipping element 'weight'".data])
  | some i =>
    let w := stripBoth " ;.".data (nextSibStr span i)
    (some (if w = "—".data then "--".data else w), [])

/-- The description walk of `_description_from_span` (items): like the
spells walk but the boundary is `<h3>` only and the walk records whether
it was found. -/
def descWalk : List Node → Except (List Char) (List (List Char) × List (List Char) × Bool)
| [] => .ok ([], [], false)
| .text s :: rest => do
  let (ts, ws, f) ← descWalk rest
  .ok (s :: ts, ws, f)
| .elem nm cs :: rest =>
  if nm = "h3".data then .ok ([], [], true)
  else if nm = "br".data then do
    let (ts, ws, f) ← descWalk rest
    .ok ("\\\\".data :: ts, ws, f)
  else if nm = "b".data then do
    let (ts, ws, f) ← descWalk rest
    .ok (texbf (nodesText cs) :: ts, ws, f)
  else if nm = "i".data then do
    let (ts, ws, f) ← descWalk rest
    .ok (texit (nodesText cs) :: ts, ws, f)
  else if nm = "ul".data then do
    let (t, w1) ← ulProcess cs
    let (ts, ws, f) ← descWalk rest
    .ok (t :: ts, w1 ++ ws, f)
  else if nm = "table".data then do
    let (t, w1) ← tableToLatex cs
    let (ts, ws, f) ← descWalk rest
    .ok (t :: ts, w1 ++ ws, f)
  else do
    let (ts, ws, f) ← descWalk rest
    .ok (nodesText cs :: ts, unknownDescMsg nm :: ws, f)

/-- `_description_from_span` (items). -/
def descriptionFromSpan (span : List Node) :
    Except (List Char) (Option (List Char) × List (List Char)) :=
  match findLabeled "h3".data "Description".data span with
  | none => .ok (none, ["Could not find Description tag. Skipping element 'description'".data])
  | some i => do
    let (ts, ws, f) ← descWalk (List.drop (i + 1) span)
    .ok (some (texify (joinL ts)),
         ws ++ (if f then [] else ["Did not find h3 block after Description.".data]))

/-- The collection loop of `_construction_from_span`: both `text_list`
(flattened text) and `tag_list` (the nodes themselves), stopping at the
next `<b>`. -/
def constrTexts : List Node → List (List Char) × List Node
| [] => ([], [])
| .text s :: rest =>
  let (ts, tags) := constrTexts rest
  (s :: ts, Node.text s :: tags)
| .elem nm cs :: rest =>
  if nm = "b".data then ([], [])
  else
    let (ts, tags) := constrTexts rest
    (nodesText cs :: ts, Node.elem nm cs :: tags)

/-- The `italic_list` of `_construction_from_span`: in spite of its name
it collects the index of EVERY `Tag` in `tag_list` (the membership test is
`isinstance(tag_list[i], Tag)`), in increasing order, so its minimum is
the head and its maximum the last element. -/
def tagIdxs : List Node → Nat → List Nat
| [], _ => []
| .text _ :: rest, i => tagIdxs rest (i + 1)
| .elem _ _ :: rest, i => i :: tagIdxs rest (i + 1)

/-- `if not feat: feat = None` (the empty string is falsy). -/
def noneIfEmpty : List Char → Option (List Char)
| [] => none
| c :: rest => some (c :: rest)

/-- The three-way split at the heart of `_construction_from_span`, given
the collected `text_list` and `tag_list`. -/
def constructionSplit (ts : List (List Char)) (tags : List Node) :
    Option (List Char) × Option (List Char) × Option (List Char) :=
  let (feat, spl, others) :=
    match tagIdxs tags 0 with
    | [] =>
      let splittxt := splitCommaSpace (joinL ts)
      let feat_list := splittxt.filter
        (fun s => containsSub "Craft".data s || containsSub "Forge".data s)
      let other_list := splittxt.filter
        (fun s => !(containsSub "Craft".data s || containsSub "Forge".data s))
      (joinSep ", ".data feat_list, ([] : List Char), joinSep ", ".data other_list)
    | i0 :: is =>
      let mx := (List.getLast? (i0 :: is)).getD i0
      (joinL (ts.take i0), joinL ((ts.take (mx + 1)).drop i0), joinL (ts.drop (mx + 1)))
  let punctuation := " ,.;:".data
  let feat := stripBoth punctuation feat
  let others := stripBoth punctuation others
  let spl := stripBoth punctuation spl
  let feat := if " and".data.isSuffixOf feat then feat.take (feat.length - 4) else feat
  (noneIfEmpty (texify feat), noneIfEmpty (texify spl), noneIfEmpty (texify others))

/-- `_construction_from_span`: `none` when the Construction heading is
absent (after a warning); `AttributeError` when the heading is the last
node (`tag.next_sibling` is `None`). -/
def constructionFromSpan (span : List Node) :
    Except (List Char)
      (Option (Option (List Char) × Option (List Char) × Option (List Char)) × List (List Char)) :=
  match findLabeled "h3".data "Construction".data span with
  | none => .ok (none, ["Could not find Construction tag. Skipping.".data])
  | some i =>
    match (List.drop (i + 1) span).head? with
    | none => .error "AttributeError: NoneType has no attribute next_siblings".data
    | some _ =>
      let (ts, tags) := constrTexts (List.drop (i + 2) span)
      .ok (some (constructionSplit ts tags), [])

/-- `soup2dict` (items), from the located data span (lines 94-122): the
construction triple is unpacked unconditionally, so a missing Construction
heading raises `TypeError` at `feat, spells, others = None`. -/
def soup2dict (span : List Node) : Except (List Char) (Record × List (List Char)) := do
  let name ← nameFromSpan span
  let (source, w1) := sourceFromSpan span
  let (aura, w2) := auraFromSpan span
  let (cl, w3) := clFromSpan span
  let (slot, w4) ← slotFromSpan span
  let (price, w5) ← priceFromSpan span
  let (weight, w6) := weightFromSpan span
  let (desc, w7) ← descriptionFromSpan span
  let (constr, w8) ← constructionFromSpan span
  match constr with
  | none => .error "TypeError: cannot unpack non-iterable NoneType object".data
  | some (feat, spl, others) =>
    .ok (optS "name".data (some name) ++ optS "source".data source ++ optS "aura".data aura
        ++ optS "cl".data cl ++ optS "slot".data slot ++ optS "price".data price
        ++ optS "weight".data weight ++ optS "description".data desc
        ++ [("feat".data, jv feat), ("spells".data, jv spl),
            ("other_requirements".data, jv others)],
        w1 ++ w2 ++ w3 ++ w4 ++ w5 ++ w6 ++ w7 ++ w8)

end Items

/-! ## Specification-side definitions

These transcribe the WORDING of the specification and of the claims under
scrutiny, independently of the code embedding above, so that refinement
claims can be stated as equalities between the two. -/

/-- Spec wording "replace X with Y": expand each character
independently. -/
def replCharSpec (a : Char) (r : List Char) (s : List Char) : List Char :=
  s.flatMap (fun c => if c = a then r else [c])

/-- Spec wording "strip carriage returns". -/
def delCRSpec (s : List Char) : List Char := s.filter (· ≠ '\r')

/-- Spec wording "prefixes every '%' not already preceded by a backslash
with a backslash": each character is inspected together with its
predecessor in the input. -/
def escPctSpec (s : List Char) : List Char :=
  ((none :: s.map some).zip s).flatMap
    (fun pc => if pc.2 = '%' ∧ pc.1 ≠ some '\\' then ['\\', '%'] else [pc.2])

/-- The escaping rules as the specification lists them, in its order. -/
def texifySpec (s : List Char) : List Char :=
  replCharSpec '\n' "\\\\".data
    (escPctSpec
      (replCharSpec '”' "''".data
        (replCharSpec '“' "''".data
          (replCharSpec '’' "'".data
            (replCharSpec '—' "--".data
              (replCharSpec '–' "$-$".data (delCRSpec s)))))))

/-- The characters the spec calls unsafe for the typesetting target:
carriage return, raw newline, the typographic minus, the em-dash, and the
typographic quotes. -/
def badChars : List Char := ['\r', '\n', '–', '—', '’', '“', '”']

/-- Every percent sign is immediately preceded by a backslash (`prev`
carries the preceding character). -/
def pctOk : Option Char → List Char → Bool
| _, [] => true
| prev, c :: rest => if c = '%' ∧ prev ≠ some '\\' then false else pctOk (some c) rest

/-- A markup-safe string in the sense of the spec's invariant. -/
def markupSafe (s : List Char) : Prop :=
  (∀ c ∈ s, c ∉ badChars) ∧ pctOk none s = true

/-- One level group as the claim words it: the alphabetically sorted
slash-joined abbreviated class names followed by the level. -/
def groupSpec (classes : List (List Char × Int)) (L : Int) : List Char :=
  joinSep "/".data
    (sortStr ((classes.filter (fun kv => kv.2 = L)).map (fun kv => (Spells.abbreviate kv.1).1)))
    ++ ' ' :: intStr L

/-- The level-summary derivation as the claim words it: the single level
when all classes share one; otherwise a main level exactly when the most
frequent level's count is at least half the total and strictly exceeds
every other level's count; remaining levels listed as groups.  The claim
leaves the order of the groups open; the code's order (descending
frequency, ties by first occurrence) is used. -/
def levelSummarySpec (classes : List (List Char × Int)) : JValue :=
  match classes.map (·.2) with
  | [] => .null
  | v :: vs =>
    let vals := v :: vs
    if vs.all (· = v) then .n v
    else
      let distinct := Spells.uniqVals vals
      let maxCnt := (distinct.map (fun l => vals.count l)).foldr max 0
      let m := (distinct.find? (fun l => vals.count l = maxCnt)).getD v
      let ordered := (Spells.mostCommon (Spells.countsOf vals)).map (·.1)
      if 2 * maxCnt ≥ vals.length ∧ distinct.countP (fun l => vals.count l = maxCnt) = 1 then
        .s (intStr m ++ " (".data
            ++ joinSep ", ".data ((ordered.filter (· ≠ m)).map (groupSpec classes)) ++ ")".data)
      else
        .s (joinSep ", ".data (ordered.map (groupSpec classes)))

/-- What the claim calls an entry's parse: the whitespace-stripped prefix
before the final character, and the numeric value of that final
character. -/
def classEntrySpec (item : List Char) : List Char × Int :=
  (stripBoth pyWs item.dropLast,
   match item.getLast? with
   | some c => ((c.toNat - '0'.toNat : Nat) : Int)
   | none => 0)

/-- The entry ends in an ASCII decimal digit. -/
def lastDigit (item : List Char) : Bool :=
  match item.getLast? with
  | some c => c.isDigit
  | none => false

/-- An element node. -/
def isTag : Node → Bool
| .text _ => false
| .elem _ _ => true

/-- An italicised span. -/
def isItalic : Node → Bool
| .text _ => false
| .elem nm _ => nm = "i".data

/-- A node flattened to its text (`str` for strings, `.text` for tags),
as the construction collector records it. -/
def flattenN : Node → List Char
| .text s => s
| .elem _ cs => nodesText cs

/-- The requirement nodes: everything before the first `<b>`. -/
def cutAtB : List Node → List Node
| [] => []
| .text s :: rest => .text s :: cutAtB rest
| .elem nm cs :: rest => if nm = "b".data then [] else .elem nm cs :: cutAtB rest

/-- The construction split as the ORIGINAL claim words it: keyed on
italicised spans, each result only stripped of surrounding whitespace and
separator punctuation. -/
def constructionClaimSpec (sibs : List Node) : List Char × List Char × List Char :=
  let punctuation := " ,.;:".data
  if sibs.any isItalic then
    let pre := sibs.takeWhile (fun n => !isItalic n)
    let post := (sibs.reverse.takeWhile (fun n => !isItalic n)).reverse
    let mid := (sibs.drop pre.length).take (sibs.length - pre.length - post.length)
    (stripBoth punctuation (joinL (pre.map flattenN)),
     stripBoth punctuation (joinL (mid.map flattenN)),
     stripBoth punctuation (joinL (post.map flattenN)))
  else
    let splittxt := splitCommaSpace (joinL (sibs.map flattenN))
    (stripBoth punctuation (joinSep ", ".data (splittxt.filter
       (fun s => containsSub "Craft".data s || containsSub "Forge".data s))),
     [],
     stripBoth punctuation (joinSep ", ".data (splittxt.filter
       (fun s => !(containsSub "Craft".data s || containsSub "Forge".data s)))))

/-- The construction split as AMENDED: the boundary markers are element
nodes of any name (the code tests `isinstance(..., Tag)`), and each field
is additionally stripped of a trailing " and" (feat only), escaped with
`texify`, and turned into `None` when empty. -/
def constructionAmendedSpec (sibs0 : List Node) :
    Option (List Char) × Option (List Char) × Option (List Char) :=
  let sibs := cutAtB sibs0
  let (feat, spl, others) :=
    if sibs.all (fun n => !isTag n) then
      let splittxt := splitCommaSpace (joinL (sibs.map flattenN))
      (joinSep ", ".data (splittxt.filter
         (fun s => containsSub "Craft".data s || containsSub "Forge".data s)),
       ([] : List Char),
       joinSep ", ".data (splittxt.filter
         (fun s => !(containsSub "Craft".data s || containsSub "Forge".data s))))
    else
      let pre := sibs.takeWhile (fun n => !isTag n)
      let post := (sibs.reverse.takeWhile (fun n => !isTag n)).reverse
      let mid := (sibs.drop pre.length).take (sibs.length - pre.length - post.length)
      (joinL (pre.map flattenN), joinL (mid.map flattenN), joinL (post.map flattenN))
  let punctuation := " ,.;:".data
  let feat := stripBoth punctuation feat
  let others := stripBoth punctuation others
  let spl := stripBoth punctuation spl
  let feat := if " and".data.isSuffixOf feat then feat.take (feat.length - 4) else feat
  (Items.noneIfEmpty (texify feat), Items.noneIfEmpty (texify spl),
   Items.noneIfEmpty (texify others))

/-- The source-priority rule as the claim words it: "PF Core" when the
core rulebook appears, otherwise the FIRST listed source, page reference
removed and abbreviated. -/
def sourceClaimSpec (table : List (List Char × List Char)) (sources : List (List Char)) :
    Option (List Char) :=
  match sources with
  | [] => none
  | s0 :: rest =>
    if containsSub "PRPG Core Rulebook".data (joinL (s0 :: rest)) then some "PF Core".data
    else some (abbreviateWith table (sliceToPg s0)).1

/-! ## Concrete documents and inputs used as witnesses and
counterexamples -/

def bTag (label : List Char) : Node := .elem "b".data [.text label]

def aTag (s : List Char) : Node := .elem "a".data [.text s]

/-- A spell document with Target and Duration but no Area, Effect, School
or any other label. -/
def exSpellNoArea : List Node :=
  [ .elem "h1".data [.text "Zap".data],
    bTag "Target".data, .text " one creature".data,
    bTag "Duration".data, .text " 1 round".data ]

/-- A spell document without a Duration label. -/
def exSpellNoDuration : List Node := [.elem "h1".data [.text "Zap".data]]

/-- An item document without a Construction heading. -/
def exItemNoConstruction : List Node := [.elem "h1".data [.text "Plain Ring".data]]

/-- An item document whose aura text contains an em-dash. -/
def exItemAura : List Node :=
  [ .elem "h1".data [.text "Ring".data],
    .text "Source Book pg. 3Aura faint—evil; CL 3rd".data,
    bTag "CL".data, .text " 3rd".data,
    .elem "h3".data [.text "Construction".data],
    bTag "Requirements".data, .text "Forge Ring".data ]

/-- A construction-requirements region whose only element node is a link,
not an italicised span. -/
def exItemLink : List Node :=
  [ .elem "h3".data [.text "Construction".data],
    bTag "Requirements".data,
    .text "Craft Wondrous Item, ".data,
    aTag "stuff".data,
    .text ", special".data ]

/-- An item document listing two sources, neither the core rulebook. -/
def exItemTwoSources : List Node :=
  [ .text "RingSource Alpha pg. 1, Beta pg. 2Aura faint".data ]

def exClasses1 : List (List Char × Int) := [("sorcerer".data, 1), ("wizard".data, 1)]

def exClasses2 : List (List Char × Int) :=
  [("sorcerer".data, 1), ("wizard".data, 1), ("bard".data, 2)]

def exClasses3 : List (List Char × Int) := [("cleric".data, 1), ("druid".data, 2)]

/-! ## Theorems

Helper lemmas first, then one theorem per claim (with witnesses and
counterexamples where required). -/

theorem subCR_eq (s : List Char) : subCR s = delCRSpec s := by
  induction s with
  | nil => rfl
  | cons c rest ih =>
    by_cases h : c = '\r' <;> simp [subCR, delCRSpec, h, ih]

theorem subMinus_eq (s : List Char) : subMinus s = replCharSpec '–' "$-$".data s := by
  induction s with
  | nil => rfl
  | cons c rest ih =>
    by_cases h : c = '–' <;> simp [subMinus, replCharSpec, h, ih]

theorem subDash_eq (s : List Char) : subDash s = replCharSpec '—' "--".data s := by
  induction s with
  | nil => rfl
  | cons c rest ih =>
    by_cases h : c = '—' <;> simp [subDash, replCharSpec, h, ih]

theorem subApos_eq (s : List Char) : subApos s = replCharSpec '’' "'".data s := by
  induction s with
  | nil => rfl
  | cons c rest ih =>
    by_cases h : c = '’' <;> simp [subApos, replCharSpec, h, ih]

theorem subLQuote_eq (s : List Char) : subLQuote s = replCharSpec '“' "''".data s := by
  induction s with
  | nil => rfl
  | cons c rest ih =>
    by_cases h : c = '“' <;> simp [subLQuote, replCharSpec, h, ih]

theorem subRQuote_eq (s : List Char) : subRQuote s = replCharSpec '”' "''".data s := by
  induction s with
  | nil => rfl
  | cons c rest ih =>
    by_cases h : c = '”' <;> simp [subRQuote, replCharSpec, h, ih]

theorem subNewline_eq (s : List Char) : subNewline s = replCharSpec '\n' "\\\\".data s := by
  induction s with
  | nil => rfl
  | cons c rest ih =>
    by_cases h : c = '\n' <;> simp [subNewline, replCharSpec, h, ih]

theorem escPct_eq_aux (s : List Char) : ∀ prev, escPct prev s =
    ((prev :: s.map some).zip s).flatMap
      (fun pc => if pc.2 = '%' ∧ pc.1 ≠ some '\\' then ['\\', '%'] else [pc.2]) := by
  induction s with
  | nil => intro prev; rfl
  | cons c rest ih => intro prev; simp [escPct, List.flatMap_cons, ih]

theorem escPct_eq (s : List Char) : escPct none s = escPctSpec s := escPct_eq_aux s none

/-- C4: `texify` removes carriage returns, replaces the typographic minus
with '$-$', the em-dash with '--', the right single quote with an
apostrophe, each typographic double quote with two apostrophes, prefixes
every '%' not already preceded by a backslash with a backslash leaving an
escaped percent unchanged, and replaces every newline with the two
character line-break marker, in exactly that order: it coincides with the
rule-by-rule transcription of the spec's escaping rules on every input. -/
theorem c4_texify_follows_escaping_rules (s : List Char) : texify s = texifySpec s := by
  simp [texify, texifySpec, subCR_eq, subMinus_eq, subDash_eq, subApos_eq, subLQuote_eq,
    subRQuote_eq, escPct_eq, subNewline_eq]

theorem subCR_id (s : List Char) (h : '\r' ∉ s) : subCR s = s := by
  induction s with
  | nil => rfl
  | cons c rest ih =>
    have hc : c ≠ '\r' := fun he => h (he ▸ List.mem_cons_self c rest)
    simp [subCR, hc, ih (fun hm => h (List.mem_cons_of_mem c hm))]

theorem subMinus_id (s : List Char) (h : '–' ∉ s) : subMinus s = s := by
  induction s with
  | nil => rfl
  | cons c rest ih =>
    have hc : c ≠ '–' := fun he => h (he ▸ List.mem_cons_self c rest)
    simp [subMinus, hc, ih (fun hm => h (List.mem_cons_of_mem c hm))]

theorem subDash_id (s : List Char) (h : '—' ∉ s) : subDash s = s := by
  induction s with
  | nil => rfl
  | cons c rest ih =>
    have hc : c ≠ '—' := fun he => h (he ▸ List.mem_cons_self c rest)
    simp [subDash, hc, ih (fun hm => h (List.mem_cons_of_mem c hm))]

theorem subApos_id (s : List Char) (h : '’' ∉ s) : subApos s = s := by
  induction s with
  | nil => rfl
  | cons c rest ih =>
    have hc : c ≠ '’' := fun he => h (he ▸ List.mem_cons_self c rest)
    simp [subApos, hc, ih (fun hm => h (List.mem_cons_of_mem c hm))]

theorem subLQuote_id (s : List Char) (h : '“' ∉ s) : subLQuote s = s := by
  induction s with
  | nil => rfl
  | cons c rest ih =>
    have hc : c ≠ '“' := fun he => h (he ▸ List.mem_cons_self c rest)
    simp [subLQuote, hc, ih (fun hm => h (List.mem_cons_of_mem c hm))]

theorem subRQuote_id (s : List Char) (h : '”' ∉ s) : subRQuote s = s := by
  induction s with
  | nil => rfl
  | cons c rest ih =>
    have hc : c ≠ '”' := fun he => h (he ▸ List.mem_cons_self c rest)
    simp [subRQuote, hc, ih (fun hm => h (List.mem_cons_of_mem c hm))]

theorem subNewline_id (s : List Char) (h : '\n' ∉ s) : subNewline s = s := by
  induction s with
  | nil => rfl
  | cons c rest ih =>
    have hc : c ≠ '\n' := fun he => h (he ▸ List.mem_cons_self c rest)
    simp [subNewline, hc, ih (fun hm => h (List.mem_cons_of_mem c hm))]

theorem escPct_id (s : List Char) (h : '%' ∉ s) : ∀ prev, escPct prev s = s := by
  induction s with
  | nil => intro prev; rfl
  | cons c rest ih =>
    intro prev
    have hc : c ≠ '%' := fun he => h (he ▸ List.mem_cons_self c rest)
    simp [escPct, hc, ih (fun hm => h (List.mem_cons_of_mem c hm))]

/-- C9: on a plain-ASCII string containing no carriage return, newline,
percent sign or typographic punctuation, `texify` is the identity, and
consequently idempotent on such strings. -/
theorem c9_texify_plain_identity (s : List Char)
    (h : ∀ c ∈ s, c.toNat < 128 ∧ c ∉ (['\r', '\n', '%', '–', '—', '’', '“', '”'] : List Char)) :
    texify s = s ∧ texify (texify s) = texify s := by
  have hn : ∀ a : Char, a ∈ (['\r', '\n', '%', '–', '—', '’', '“', '”'] : List Char) → a ∉ s :=
    fun a ha hm => (h a hm).2 ha
  have hid : texify s = s := by
    rw [texify, subCR_id s (hn _ (by decide)), subMinus_id s (hn _ (by decide)),
      subDash_id s (hn _ (by decide)), subApos_id s (hn _ (by decide)),
      subLQuote_id s (hn _ (by decide)), subRQuote_id s (hn _ (by decide)),
      escPct_id s (hn _ (by decide)) none, subNewline_id s (hn _ (by decide))]
  exact ⟨hid, by rw [hid]; exact hid⟩

theorem c9_texify_plain_identity_witness :
    (∀ c ∈ "Hello world".data,
      c.toNat < 128 ∧ c ∉ (['\r', '\n', '%', '–', '—', '’', '“', '”'] : List Char)) ∧
    texify "Hello world".data = "Hello world".data :=
  ⟨by decide, (c9_texify_plain_identity "Hello world".data (by decide)).1⟩

theorem mem_replCharSpec {c a : Char} {r : List Char} {s : List Char}
    (h : c ∈ replCharSpec a r s) : c ∈ r ∨ (c ∈ s ∧ c ≠ a) := by
  simp only [replCharSpec, List.mem_flatMap] at h
  obtain ⟨x, hx, hc⟩ := h
  by_cases hxa : x = a
  · subst hxa; simp [if_pos] at hc; exact Or.inl hc
  · simp [hxa] at hc; subst hc; exact Or.inr ⟨hx, hxa⟩

theorem mem_escPct {c : Char} : ∀ {s : List Char} {prev}, c ∈ escPct prev s → c = '\\' ∨ c ∈ s := by
  intro s
  induction s with
  | nil => intro prev h; simp [escPct] at h
  | cons a rest ih =>
    intro prev h
    simp only [escPct] at h
    rcases List.mem_append.mp h with h | h
    · by_cases hc : a = '%' ∧ prev ≠ some '\\'
      · rw [if_pos hc] at h
        rcases List.mem_cons.mp h with rfl | h
        · exact Or.inl rfl
        · rcases List.mem_cons.mp h with rfl | h
          · exact Or.inr (by rw [hc.1]; exact List.mem_cons_self _ _)
          · simp at h
      · rw [if_neg hc] at h
        rcases List.mem_cons.mp h with rfl | h
        · exact Or.inr (List.mem_cons_self _ _)
        · simp at h
    · rcases ih h with h | h
      · exact Or.inl h
      · exact Or.inr (List.mem_cons_of_mem a h)

theorem texify_no_bad {c : Char} {s : List Char} (h : c ∈ texify s) : c ∉ badChars := by
  rw [texify, subNewline_eq] at h
  rcases mem_replCharSpec h with h | ⟨h, hnl⟩
  · simp at h; subst h; decide
  · rcases mem_escPct h with rfl | h
    · decide
    · rw [subRQuote_eq] at h
      rcases mem_replCharSpec h with h | ⟨h, hq2⟩
      · simp at h; subst h; decide
      · rw [subLQuote_eq] at h
        rcases mem_replCharSpec h with h | ⟨h, hq1⟩
        · simp at h; subst h; decide
        · rw [subApos_eq] at h
          rcases mem_replCharSpec h with h | ⟨h, ha⟩
          · simp at h; subst h; decide
          · rw [subDash_eq] at h
            rcases mem_replCharSpec h with h | ⟨h, hd⟩
            · simp at h; subst h; decide
            · rw [subMinus_eq] at h
              rcases mem_replCharSpec h with h | ⟨h, hm⟩
              · simp at h; rcases h with rfl | rfl | rfl <;> decide
              · rw [subCR_eq, delCRSpec] at h
                have hcr : c ≠ '\r' := by
                  intro he
                  have h2 := (List.mem_filter.mp h).2
                  rw [he] at h2
                  simp at h2
                intro hb
                simp only [badChars, List.mem_cons] at hb
                rcases hb with rfl | rfl | rfl | rfl | rfl | rfl | rfl | hb
                · exact hcr rfl
                · exact hnl rfl
                · exact hm rfl
                · exact hd rfl
                · exact ha rfl
                · exact hq1 rfl
                · exact hq2 rfl
                · simp at hb

theorem pctOk_backslash {s : List Char} {prev : Option Char}
    (h : pctOk prev s = true) : pctOk (some '\\') s = true := by
  cases s with
  | nil => rfl
  | cons c rest =>
    by_cases hc : c = '%' ∧ prev ≠ some '\\'
    · simp [pctOk, hc] at h
    · simp only [pctOk, if_neg hc] at h
      have : ¬(c = '%' ∧ (some '\\' : Option Char) ≠ some '\\') := by
        intro ⟨_, hx⟩; exact hx rfl
      simp only [pctOk, if_neg this]
      exact h

theorem escPct_pctOk (s : List Char) : ∀ prev, pctOk prev (escPct prev s) = true := by
  induction s with
  | nil => intro prev; rfl
  | cons c rest ih =>
    intro prev
    by_cases h : c = '%' ∧ prev ≠ some '\\'
    · obtain ⟨rfl, hp⟩ := h
      simp [escPct, hp, pctOk, ih (some '%')]
    · simp [escPct, h, pctOk, ih (some c)]

theorem subNewline_pctOk : ∀ (s : List Char) (prev : Option Char),
    pctOk prev s = true → pctOk prev (subNewline s) = true := by
  intro s
  induction s with
  | nil => intro prev h; exact h
  | cons c rest ih =>
    intro prev h
    by_cases hc : c = '\n'
    · subst hc
      have hnp : ¬(('\n' : Char) = '%' ∧ prev ≠ some '\\') := by
        intro ⟨hx, _⟩; exact absurd hx (by decide)
      simp only [pctOk, if_neg hnp] at h
      have h1 : ¬(('\\' : Char) = '%' ∧ prev ≠ some '\\') := by
        intro ⟨hx, _⟩; exact absurd hx (by decide)
      have h2 : ¬(('\\' : Char) = '%' ∧ (some '\\' : Option Char) ≠ some '\\') := by
        intro ⟨hx, _⟩; exact absurd hx (by decide)
      simp only [subNewline, pctOk, if_neg h1, if_neg h2]
      exact pctOk_backslash (ih (some '\n') h)
    · by_cases hp : c = '%' ∧ prev ≠ some '\\'
      · simp [pctOk, hp] at h
      · simp only [pctOk, if_neg hp] at h
        simp [subNewline, hc, pctOk, if_neg hp]
        exact ih (some c) h

/-- C7 (amended): every string that passes through `texify` is
markup-safe at that point — no carriage return, raw newline, typographic
minus, em-dash or typographic quote survives, and every percent sign is
preceded by a backslash.  Fields emitted without `texify` (name, aura,
school, slot, price, weight, save, sr) carry no such guarantee. -/
theorem c7_texify_output_markup_safe (s : List Char) : markupSafe (texify s) := by
  refine ⟨fun c hc => texify_no_bad hc, ?_⟩
  rw [texify]
  exact subNewline_pctOk _ none (escPct_pctOk _ none)

/-- C7 (counterexample): the aura field of an assembled item record can
carry a raw em-dash, because `_aura_from_span` applies no escaping. -/
theorem c7_counterexample_aura_unsafe :
    (Items.soup2dict exItemAura).toOption.map (fun p => recLookup "aura".data p.1)
      = some (some (JValue.s "faint—evil".data)) ∧
    ¬ markupSafe "faint—evil".data := by
  constructor
  · rfl
  · intro hms
    exact absurd (hms.1 '—' (by decide)) (by decide)

theorem dictGet_of_mem {d : List (List Char × List Char)}
    (hd : (d.map Prod.fst).Nodup) {k v : List Char} (h : (k, v) ∈ d) :
    dictGet d k = .ok v := by
  induction d with
  | nil => simp at h
  | cons p rest ih =>
    rcases List.mem_cons.mp h with rfl | h
    · simp [dictGet]
    · have hk : p.1 ≠ k := by
        intro he
        have : k ∈ rest.map Prod.fst := List.mem_map.mpr ⟨(k, v), h, rfl⟩
        rw [List.map_cons] at hd
        exact (List.nodup_cons.mp hd).1 (he ▸ this)
      simp [dictGet, hk]
      exact ih (List.nodup_cons.mp (List.map_cons Prod.fst p rest ▸ hd)).2 h

theorem dictGet_of_not_mem {d : List (List Char × List Char)} {k : List Char}
    (h : k ∉ d.map Prod.fst) : dictGet d k = .error "KeyError".data := by
  induction d with
  | nil => rfl
  | cons p rest ih =>
    have hk : p.1 ≠ k := by
      intro he
      exact h (List.mem_map.mpr ⟨p, List.mem_cons_self _ _, he⟩)
    simp [dictGet, hk]
    exact ih (fun hm => h (List.mem_cons_of_mem _ hm))

/-- C10: `abbreviate` (in both scrapers) maps a name that is a key of the
static abbreviation table to its short code with no diagnostic, and passes
any other name through unchanged with exactly one diagnostic; it never
raises and the table is never modified (the embedding is pure). -/
theorem c10_abbreviate_total (name : List Char) :
    (∀ v, (name, v) ∈ Spells.abbreviations → Spells.abbreviate name = (v, [])) ∧
    (name ∉ Spells.abbreviations.map Prod.fst →
      Spells.abbreviate name = (name, [abbrevMsg name])) ∧
    (∀ v, (name, v) ∈ Items.abbreviations → Items.abbreviate name = (v, [])) ∧
    (name ∉ Items.abbreviations.map Prod.fst →
      Items.abbreviate name = (name, [abbrevMsg name])) := by
  refine ⟨fun v hv => ?_, fun hn => ?_, fun v hv => ?_, fun hn => ?_⟩
  · rw [Spells.abbreviate, abbreviateWith, dictGet_of_mem (by decide) hv]
  · rw [Spells.abbreviate, abbreviateWith, dictGet_of_not_mem hn]
  · rw [Items.abbreviate, abbreviateWith, dictGet_of_mem (by decide) hv]
  · rw [Items.abbreviate, abbreviateWith, dictGet_of_not_mem hn]

theorem c10_abbreviate_total_witness :
    Spells.abbreviate "sorcerer".data = ("sor".data, []) ∧
    Items.abbreviate "Book".data = ("Book".data, [abbrevMsg "Book".data]) :=
  ⟨(c10_abbreviate_total "sorcerer".data).1 "sor".data (by decide),
   (c10_abbreviate_total "Book".data).2.2.2 (by decide)⟩

/-- C3 (code bug): record assembly does NOT complete when the Construction
heading (items) or the Duration label (spells) is absent, although both
extractors warn that they are "skipping" the element: the items assembler
unpacks the `None` returned for a missing Construction heading
(`TypeError`), and `_duration_from_span` calls `.replace` on `None`
(`AttributeError`). -/
theorem c3_missing_label_aborts_assembly :
    Items.soup2dict exItemNoConstruction
      = .error "TypeError: cannot unpack non-iterable NoneType object".data ∧
    Spells.soup2dict exSpellNoDuration
      = .error "AttributeError: NoneType has no attribute replace".data :=
  ⟨rfl, rfl⟩

theorem mapM_parse_ok {l : List (List Char)} (h : ∀ item ∈ l, lastDigit item = true) :
    l.mapM Spells.parseClassItem = .ok (l.map classEntrySpec) := by
  induction l with
  | nil => rfl
  | cons item rest ih =>
    have hi := h item (List.mem_cons_self _ _)
    rw [lastDigit] at hi
    have hone : Spells.parseClassItem item = .ok (classEntrySpec item) := by
      rw [Spells.parseClassItem, classEntrySpec]
      cases hl : item.getLast? with
      | none => rw [hl] at hi; simp at hi
      | some c =>
        rw [hl] at hi
        have hb : c.isDigit = true := hi
        simp [hb]
    rw [List.mapM_cons, hone, ih (fun x hx => h x (List.mem_cons_of_mem _ hx))]
    rfl

theorem mapM_parse_err {l : List (List Char)} (h : ∃ item ∈ l, lastDigit item = false) :
    ∃ e, l.mapM Spells.parseClassItem = .error e := by
  induction l with
  | nil => simp at h
  | cons item rest ih =>
    obtain ⟨x, hx, hbad⟩ := h
    rcases List.mem_cons.mp hx with rfl | hx
    · rw [lastDigit] at hbad
      cases hl : x.getLast? with
      | none =>
        refine ⟨"IndexError: string index out of range".data, ?_⟩
        rw [List.mapM_cons]
        simp [Spells.parseClassItem, hl]
        rfl
      | some c =>
        rw [hl] at hbad
        have hb : c.isDigit = false := hbad
        refine ⟨"ValueError: invalid literal for int".data, ?_⟩
        rw [List.mapM_cons]
        simp [Spells.parseClassItem, hl, hb]
        rfl
    · cases hp : Spells.parseClassItem item with
      | error e => exact ⟨e, by rw [List.mapM_cons, hp]; rfl⟩
      | ok v =>
        obtain ⟨e, he⟩ := ih ⟨_, hx, hbad⟩
        exact ⟨e, by rw [List.mapM_cons, hp, he]; rfl⟩

/-- C8: when every comma-separated entry of the Level text ends in a
decimal digit, the classes extraction returns the dict mapping each
entry's whitespace-stripped prefix to the numeric value of the entry's
final character only (so a multi-digit level is truncated to its last
digit); an entry that does not end in a digit (or is empty) makes the
extraction raise instead of returning a not-found result. -/
theorem c8_classes_extraction (text : List Char) :
    ((∀ item ∈ splitComma text, lastDigit item = true) →
      Spells.classesOfText text
        = .ok (Spells.buildClassDict ((splitComma text).map classEntrySpec))) ∧
    ((∃ item ∈ splitComma text, lastDigit item = false) →
      ∃ e, Spells.classesOfText text = .error e) := by
  constructor
  · intro h
    unfold Spells.classesOfText
    rw [mapM_parse_ok h]
    rfl
  · intro h
    obtain ⟨e, he⟩ := mapM_parse_err h
    refine ⟨e, ?_⟩
    unfold Spells.classesOfText
    rw [he]
    rfl

theorem c8_classes_extraction_witness :
    Spells.classesOfText " sorcerer 1, wizard 12".data
      = .ok [("sorcerer".data, 1), ("wizard 1".data, 2)] ∧
    (∃ e, Spells.classesOfText " bard -".data = .error e) := by
  constructor
  · rw [(c8_classes_extraction " sorcerer 1, wizard 12".data).1 (by decide)]
    rfl
  · exact (c8_classes_extraction " bard -".data).2 (by decide)

/-- C6 (counterexample): for an item document listing two sources without
the core rulebook, the code abbreviates the LAST listed source while the
claim prescribes the first. -/
theorem c6_counterexample_items_take_last :
    (Items.sourceFromSpan exItemTwoSources).1 = some "Beta".data ∧
    sourceClaimSpec Items.abbreviations ["Alpha pg. 1".data, "Beta pg. 2".data]
      = some "Alpha".data ∧
    ("Beta".data : List Char) ≠ "Alpha".data := ⟨by decide, by decide, by decide⟩

theorem collectSources_canonical (x : List Char) (rest : List Node) :
    ∀ l : List (List Char),
      Spells.collectSources (l.map aTag ++ (bTag x :: rest)) = l := by
  intro l
  induction l with
  | nil => simp [Spells.collectSources, bTag]
  | cons s ls ih =>
    simp only [List.map_cons, List.cons_append]
    rw [show Spells.collectSources (aTag s :: (ls.map aTag ++ (bTag x :: rest)))
          = nodesText [Node.text s] :: Spells.collectSources (ls.map aTag ++ (bTag x :: rest))
        from by simp [Spells.collectSources, aTag]]
    rw [ih]
    simp [nodesText, nodeText]

theorem containsSub_tail {pat c : _} {rest : List Char}
    (h : containsSub pat (c :: rest) = false) : containsSub pat rest = false := by
  rw [containsSub] at h
  exact (Bool.or_eq_false_iff.mp h).2

theorem splitCS_single : ∀ {s : List Char}, containsSub ", ".data s = false →
    splitCommaSpace s = [s] := by
  intro s
  induction s using splitCommaSpace.induct with
  | case1 => intro h; rfl
  | case2 rest ih =>
    intro h
    rw [containsSub] at h
    simp at h
  | case3 c rest hne hsplit ih =>
    intro h
    have ht := ih (containsSub_tail h)
    rw [ht] at hsplit
    exact absurd hsplit (by simp)
  | case4 c rest hne g gs hsplit ih =>
    intro h
    have ht := ih (containsSub_tail h)
    rw [splitCommaSpace.eq_3 c rest hne, ht]

theorem splitCS_append {tail : List Char} : ∀ {s0 : List Char},
    containsSub ", ".data s0 = false →
    splitCommaSpace (s0 ++ ',' :: ' ' :: tail) = s0 :: splitCommaSpace tail := by
  intro s0
  induction s0 with
  | nil => intro h; rfl
  | cons c s0a ih =>
    intro h
    have hne : ∀ (r1 : List Char), c = ',' → s0a ++ ',' :: ' ' :: tail = ' ' :: r1 → False := by
      intro r1 hc happ
      subst hc
      cases s0a with
      | nil => simp at happ
      | cons c2 s0b =>
        rw [List.cons_append] at happ
        have hc2 : c2 = ' ' := (List.cons.injEq _ _ _ _ ▸ happ :
          c2 = ' ' ∧ s0b ++ ',' :: ' ' :: tail = r1).1
        subst hc2
        rw [containsSub] at h
        simp [List.isPrefixOf] at h
    rw [List.cons_append, splitCommaSpace.eq_3 _ _ hne, ih (containsSub_tail h)]

theorem splitCS_joinSep : ∀ (l : List (List Char)), l ≠ [] →
    (∀ s ∈ l, containsSub ", ".data s = false) →
    splitCommaSpace (joinSep ", ".data l) = l := by
  intro l
  induction l with
  | nil => intro h _; exact absurd rfl h
  | cons s0 rest ih =>
    intro _ hall
    cases rest with
    | nil => exact splitCS_single (hall s0 (List.mem_cons_self _ _))
    | cons s1 rest2 =>
      rw [show joinSep ", ".data (s0 :: s1 :: rest2)
            = (s0 ++ ", ".data) ++ joinSep ", ".data (s1 :: rest2) from rfl,
          List.append_assoc]
      rw [show ", ".data ++ joinSep ", ".data (s1 :: rest2)
            = ',' :: ' ' :: joinSep ", ".data (s1 :: rest2) from rfl]
      rw [splitCS_append (hall s0 (List.mem_cons_self _ _))]
      rw [ih (by simp) (fun x hx => hall x (List.mem_cons_of_mem _ hx))]

theorem findSub_here {pat x : List Char} (h : pat ≠ []) : findSub pat (pat ++ x) = some 0 := by
  cases pat with
  | nil => exact absurd rfl h
  | cons c p =>
    rw [List.cons_append, findSub,
      if_pos (by rw [List.isPrefixOf_iff_prefix]; exact List.prefix_append (c :: p) x)]

/-- C6 (amended): with one or more listed sources, the extracted source is
"PF Core" whenever "PRPG Core Rulebook" occurs in the (concatenated)
source listing; otherwise the SPELLS pipeline abbreviates the first listed
source and the ITEMS pipeline abbreviates the last, each with its trailing
page reference cut off. -/
theorem c6_amended_source_priority :
    (∀ (s0 : List Char) (ss : List (List Char)) (rest : List Node),
      (Spells.sourceFromSpan
          (bTag "Source".data :: ((s0 :: ss).map aTag ++ (bTag "School".data :: rest)))).1
        = sourceClaimSpec Spells.abbreviations (s0 :: ss)) ∧
    (∀ (s0 : List Char) (ss : List (List Char)),
      (∀ s ∈ s0 :: ss, containsSub ", ".data s = false) →
      findSub "Aura".data
          ("Source ".data ++ joinSep ", ".data (s0 :: ss) ++ "Aura".data)
        = some (7 + (joinSep ", ".data (s0 :: ss)).length) →
      (Items.sourceFromSpan
          [Node.text ("Source ".data ++ joinSep ", ".data (s0 :: ss) ++ "Aura".data)]).1
        = some (if containsSub "PRPG Core Rulebook".data (joinSep ", ".data (s0 :: ss))
                then "PF Core".data
                else (Items.abbreviate (sliceToPg (((s0 :: ss).getLast?).getD []))).1)) := by
  constructor
  · intro s0 ss rest
    rw [Spells.sourceFromSpan]
    have hfind : findLabeled "b".data "Source".data
        (bTag "Source".data :: ((s0 :: ss).map aTag ++ (bTag "School".data :: rest)))
        = some 0 := by
      rw [bTag, findLabeled]
      simp
    have hcollect : Spells.collectSources
        (List.drop (0 + 1)
          (bTag "Source".data :: (List.map aTag (s0 :: ss) ++ bTag "School".data :: rest)))
        = s0 :: ss := by
      rw [show List.drop (0 + 1)
            (bTag "Source".data :: (List.map aTag (s0 :: ss) ++ bTag "School".data :: rest))
            = List.map aTag (s0 :: ss) ++ (bTag "School".data :: rest) from rfl]
      exact collectSources_canonical _ _ _
    simp only [hfind, hcollect, sourceClaimSpec]
    by_cases hp : containsSub "PRPG Core Rulebook".data (joinL (s0 :: ss)) = true
    · simp [hp]
    · simp [hp, Spells.abbreviate]
  · intro s0 ss hns hA
    rw [Items.sourceFromSpan]
    have hnt : nodesText
        [Node.text ("Source ".data ++ joinSep ", ".data (s0 :: ss) ++ "Aura".data)]
        = "Source ".data ++ (joinSep ", ".data (s0 :: ss) ++ "Aura".data) := by
      simp [nodesText, nodeText]
    rw [List.append_assoc] at hA
    have hfS : findSub "Source ".data
        ("Source ".data ++ (joinSep ", ".data (s0 :: ss) ++ "Aura".data)) = some 0 :=
      findSub_here (by decide)
    have hslice : sliceLC
        ("Source ".data ++ (joinSep ", ".data (s0 :: ss) ++ "Aura".data)) (0 + 7)
        (7 + (joinSep ", ".data (s0 :: ss)).length)
        = joinSep ", ".data (s0 :: ss) := by
      rw [sliceLC, ← List.append_assoc]
      rw [show (7 : Nat) + (joinSep ", ".data (s0 :: ss)).length
            = ("Source ".data ++ joinSep ", ".data (s0 :: ss)).length from by simp; omega]
      rw [List.take_left]
      rw [show (0 + 7 : Nat) = ("Source ".data).length from rfl, List.drop_left]
    have hsplit : splitCommaSpace (joinSep ", ".data (s0 :: ss)) = s0 :: ss :=
      splitCS_joinSep _ (List.cons_ne_nil _ _) hns
    simp only [hnt, hfS, hA, hslice, hsplit]
    by_cases hp : containsSub "PRPG Core Rulebook".data (joinSep ", ".data (s0 :: ss)) = true
    · simp [hp]
    · simp [hp, Items.abbreviate]

theorem c6_amended_source_priority_witness :
    (Spells.sourceFromSpan
        (bTag "Source".data
          :: (List.map aTag ["Ultimate Magic pg. 21".data] ++ (bTag "School".data :: [])))).1
      = some "PF Ult Magic".data ∧
    (∀ s ∈ ["Alpha pg. 1".data, "Beta pg. 2".data], containsSub ", ".data s = false) ∧
    (Items.sourceFromSpan
        [Node.text ("Source ".data
          ++ joinSep ", ".data ["Alpha pg. 1".data, "Beta pg. 2".data] ++ "Aura".data)]).1
      = some "Beta".data := by
  refine ⟨?_, by decide, ?_⟩
  · have h := c6_amended_source_priority.1 "Ultimate Magic pg. 21".data [] []
    rw [h]
    decide
  · have h := c6_amended_source_priority.2 "Alpha pg. 1".data ["Beta pg. 2".data]
      (by decide) (by decide)
    rw [h]
    decide

/-- C5 (counterexample): a requirements sequence containing a link but no
italicised span: the code takes the link for the spells field, while the
claim's italics-based split says the spells field is empty. -/
theorem c5_counterexample_link_is_boundary :
    Items.constructionFromSpan exItemLink
      = .ok (some (some "Craft Wondrous Item".data, some "stuff".data, some "special".data), []) ∧
    (constructionClaimSpec (List.drop 2 exItemLink)).2.1 = [] ∧
    (List.drop 2 exItemLink).any isItalic = false := ⟨rfl, by decide, by decide⟩

theorem takeWhile_append_all {p : Node → Bool} {l1 l2 : List Node}
    (h : ∀ x ∈ l1, p x = true) :
    (l1 ++ l2).takeWhile p = l1 ++ l2.takeWhile p := by
  induction l1 with
  | nil => rfl
  | cons a rest ih =>
    rw [List.cons_append, List.takeWhile_cons, if_pos (h a (List.mem_cons_self _ _)),
      ih (fun x hx => h x (List.mem_cons_of_mem _ hx)), List.cons_append]

theorem takeWhile_append_stop {p : Node → Bool} {l1 l2 : List Node}
    (h : ∃ x ∈ l1, p x = false) :
    (l1 ++ l2).takeWhile p = l1.takeWhile p := by
  induction l1 with
  | nil => obtain ⟨x, hx, _⟩ := h; simp at hx
  | cons a rest ih =>
    obtain ⟨x, hx, hpx⟩ := h
    rcases List.mem_cons.mp hx with rfl | hx
    · rw [List.cons_append, List.takeWhile_cons, if_neg (by simp [hpx]),
        List.takeWhile_cons, if_neg (by simp [hpx])]
    · by_cases hpa : p a = true
      · rw [List.cons_append, List.takeWhile_cons, if_pos hpa, List.takeWhile_cons, if_pos hpa,
          ih ⟨x, hx, hpx⟩]
      · rw [List.cons_append, List.takeWhile_cons, if_neg hpa, List.takeWhile_cons, if_neg hpa]

theorem constrTexts_eq (sibs : List Node) :
    Items.constrTexts sibs = ((cutAtB sibs).map flattenN, cutAtB sibs) := by
  induction sibs with
  | nil => rfl
  | cons n rest ih =>
    cases n with
    | text s => simp [Items.constrTexts, cutAtB, ih, flattenN]
    | elem nm cs =>
      by_cases hb : nm = "b".data
      · simp [Items.constrTexts, cutAtB, hb]
      · simp [Items.constrTexts, cutAtB, hb, ih, flattenN]

theorem tagIdxs_shift (ns : List Node) : ∀ k, Items.tagIdxs ns k = (Items.tagIdxs ns 0).map (· + k) := by
  induction ns with
  | nil => intro k; rfl
  | cons n rest ih =>
    intro k
    cases n with
    | text s =>
      rw [show Items.tagIdxs (Node.text s :: rest) k = Items.tagIdxs rest (k + 1) from rfl,
        show Items.tagIdxs (Node.text s :: rest) 0 = Items.tagIdxs rest (0 + 1) from rfl,
        ih (k + 1), ih (0 + 1), List.map_map]
      congr 1
      funext x
      simp
      omega
    | elem nm cs =>
      rw [show Items.tagIdxs (Node.elem nm cs :: rest) k = k :: Items.tagIdxs rest (k + 1) from rfl,
        show Items.tagIdxs (Node.elem nm cs :: rest) 0 = 0 :: Items.tagIdxs rest (0 + 1) from rfl,
        ih (k + 1), ih (0 + 1), List.map_cons, List.map_map]
      congr 1
      · omega
      · congr 1
        funext x
        simp
        omega

theorem tagIdxs_nil_iff (ns : List Node) :
    (Items.tagIdxs ns 0 = [] ↔ ns.all (fun n => !isTag n) = true) := by
  induction ns with
  | nil => simp [Items.tagIdxs]
  | cons n rest ih =>
    cases n with
    | text s =>
      rw [show Items.tagIdxs (Node.text s :: rest) 0 = Items.tagIdxs rest (0 + 1) from rfl,
        tagIdxs_shift rest (0 + 1)]
      simp [isTag, ih]
    | elem nm cs =>
      rw [show Items.tagIdxs (Node.elem nm cs :: rest) 0 = 0 :: Items.tagIdxs rest (0 + 1) from rfl]
      simp [isTag]

theorem tagIdxs_head : ∀ {ns : List Node} {i0 : Nat} {is : List Nat},
    Items.tagIdxs ns 0 = i0 :: is →
    i0 = (ns.takeWhile (fun n => !isTag n)).length := by
  intro ns
  induction ns with
  | nil => intro i0 is h; simp [Items.tagIdxs] at h
  | cons n rest ih =>
    intro i0 is h
    cases n with
    | text s =>
      rw [show Items.tagIdxs (Node.text s :: rest) 0 = Items.tagIdxs rest (0 + 1) from rfl,
        tagIdxs_shift rest (0 + 1)] at h
      cases hr : Items.tagIdxs rest 0 with
      | nil => rw [hr] at h; simp at h
      | cons j0 js =>
        rw [hr, List.map_cons] at h
        injection h with h1 h2
        rw [List.takeWhile_cons, if_pos (show (!isTag (Node.text s)) = true from rfl),
          List.length_cons, ← ih hr]
        omega
    | elem nm cs =>
      rw [show Items.tagIdxs (Node.elem nm cs :: rest) 0
            = 0 :: Items.tagIdxs rest (0 + 1) from rfl] at h
      injection h with h1 h2
      rw [List.takeWhile_cons, if_neg (by simp [isTag])]
      simp [h1.symm]

theorem restTag_exists {rest : List Node} {j0 : Nat} {js : List Nat}
    (hr : Items.tagIdxs rest 0 = j0 :: js) :
    ∃ x ∈ rest.reverse, (fun n => !isTag n) x = false := by
  have : ¬ rest.all (fun n => !isTag n) = true := by
    intro hall
    rw [(tagIdxs_nil_iff rest).mpr hall] at hr
    simp at hr
  rw [List.all_eq_true] at this
  push_neg at this
  obtain ⟨x, hx, hpx⟩ := this
  exact ⟨x, List.mem_reverse.mpr hx, by simp at hpx ⊢; simp [hpx]⟩

theorem getLast_getD_succ (j0 : Nat) (js : List Nat) (d : Nat) :
    ((j0 :: js).map (· + 1)).getLast?.getD d = ((j0 :: js).getLast?.getD j0) + 1 := by
  rw [List.getLast?_map]
  cases hgl : (j0 :: js).getLast? with
  | none => rw [List.getLast?_eq_none_iff] at hgl; simp at hgl
  | some m => simp

theorem tagIdxs_last : ∀ {ns : List Node} {i0 : Nat} {is : List Nat},
    Items.tagIdxs ns 0 = i0 :: is →
    ns.drop (((i0 :: is).getLast?.getD i0) + 1)
      = (ns.reverse.takeWhile (fun n => !isTag n)).reverse ∧
    ((i0 :: is).getLast?.getD i0) + 1 ≤ ns.length := by
  intro ns
  induction ns with
  | nil => intro i0 is h; simp [Items.tagIdxs] at h
  | cons n rest ih =>
    intro i0 is h
    cases n with
    | elem nm cs =>
      rw [show Items.tagIdxs (Node.elem nm cs :: rest) 0
            = 0 :: Items.tagIdxs rest (0 + 1) from rfl,
        tagIdxs_shift rest (0 + 1)] at h
      injection h with h1 h2
      cases hr : Items.tagIdxs rest 0 with
      | nil =>
        rw [hr] at h2
        simp at h2
        subst h2
        subst h1
        have hall : rest.all (fun n => !isTag n) = true := (tagIdxs_nil_iff rest).mp hr
        constructor
        · rw [show ((((0 : Nat) :: [])).getLast?.getD 0 + 1) = 1 from rfl]
          rw [show (Node.elem nm cs :: rest).drop 1 = rest from rfl, List.reverse_cons,
            takeWhile_append_all (fun x hx => List.all_eq_true.mp hall x (List.mem_reverse.mp hx))]
          rw [show List.takeWhile (fun n => !isTag n) [Node.elem nm cs] = [] from by
            rw [List.takeWhile_cons, if_neg (by simp [isTag])]]
          simp
        · rw [show ((((0 : Nat) :: [])).getLast?.getD 0 + 1) = 1 from rfl]
          simp only [List.length_cons]
          omega
      | cons j0 js =>
        rw [hr] at h2
        subst h2
        subst h1
        have hmx : (((0 : Nat) :: (j0 :: js).map (· + (0 + 1))).getLast?.getD 0)
            = ((j0 :: js).getLast?.getD j0) + 1 := by
          rw [show ((j0 :: js).map (· + (0 + 1))) = ((j0 :: js).map (· + 1)) from by simp,
            show ((0 : Nat) :: (j0 :: js).map (· + 1)) = 0 :: ((j0+1) :: js.map (· + 1)) from by simp,
            List.getLast?_cons_cons]
          rw [show ((j0+1) :: js.map (· + 1)) = (j0 :: js).map (· + 1) from by simp]
          exact getLast_getD_succ j0 js 0
        rw [hmx]
        obtain ⟨ihd, ihb⟩ := ih hr
        constructor
        · rw [show (Node.elem nm cs :: rest).drop ((j0 :: js).getLast?.getD j0 + 1 + 1)
                = rest.drop ((j0 :: js).getLast?.getD j0 + 1) from rfl]
          rw [List.reverse_cons, takeWhile_append_stop (restTag_exists hr)]
          exact ihd
        · simp only [List.length_cons]
          omega
    | text s =>
      rw [show Items.tagIdxs (Node.text s :: rest) 0 = Items.tagIdxs rest (0 + 1) from rfl,
        tagIdxs_shift rest (0 + 1)] at h
      cases hr : Items.tagIdxs rest 0 with
      | nil => rw [hr] at h; simp at h
      | cons j0 js =>
        rw [hr] at h
        have hmx : ((i0 :: is).getLast?.getD i0) = ((j0 :: js).getLast?.getD j0) + 1 := by
          rw [← h]
          rw [show ((j0 :: js).map (· + (0 + 1))) = ((j0 :: js).map (· + 1)) from by simp]
          exact getLast_getD_succ j0 js _
        rw [hmx]
        obtain ⟨ihd, ihb⟩ := ih hr
        constructor
        · rw [show (Node.text s :: rest).drop ((j0 :: js).getLast?.getD j0 + 1 + 1)
                = rest.drop ((j0 :: js).getLast?.getD j0 + 1) from rfl]
          rw [List.reverse_cons, takeWhile_append_stop (restTag_exists hr)]
          exact ihd
        · simp only [List.length_cons]
          omega

/-- C5 (amended): the construction-requirements split keys on ELEMENT
nodes of any tag name (the code tests `isinstance(..., Tag)`, so a link
counts as a boundary, not only an italicised span): with at least one
element node, the text before the first element node is the feat field,
the text from the first through the last element node is the spells field,
and the text after the last is the other-requirements field; with none,
the comma-separated entries containing 'Craft' or 'Forge' are the feats
and the rest the other requirements, with an empty spells field.  Each
result is stripped of surrounding whitespace and separator punctuation, a
trailing " and" is removed from the feat field, each field is escaped with
`texify`, and empty fields become None. -/
theorem c5_amended_construction_split (sibs : List Node) :
    Items.constructionSplit (Items.constrTexts sibs).1 (Items.constrTexts sibs).2
      = constructionAmendedSpec sibs := by
  rw [constrTexts_eq]
  cases h : Items.tagIdxs (cutAtB sibs) 0 with
  | nil =>
    have hall := (tagIdxs_nil_iff _).mp h
    rw [Items.constructionSplit, constructionAmendedSpec, h, if_pos hall]
  | cons i0 is =>
    have hne : ¬ (cutAtB sibs).all (fun n => !isTag n) = true := by
      intro hall
      rw [(tagIdxs_nil_iff _).mpr hall] at h
      simp at h
    obtain ⟨hdrop, hb⟩ := tagIdxs_last h
    have hhead := tagIdxs_head h
    have htake : (cutAtB sibs).take i0 = (cutAtB sibs).takeWhile (fun n => !isTag n) := by
      rw [hhead]
      exact (List.prefix_iff_eq_take.mp (List.takeWhile_prefix _)).symm
    have hpost : ((cutAtB sibs).reverse.takeWhile (fun n => !isTag n)).reverse.length
        = (cutAtB sibs).length - (((i0 :: is).getLast?.getD i0) + 1) := by
      rw [← hdrop, List.length_drop]
    simp only [Items.constructionSplit, constructionAmendedSpec, h, if_neg hne]
    simp only [← List.map_take, ← List.map_drop]
    rw [List.drop_take]
    rw [show (cutAtB sibs).length - (List.takeWhile (fun n => !isTag n) (cutAtB sibs)).length
          - (List.takeWhile (fun n => !isTag n) (cutAtB sibs).reverse).reverse.length
          = ((i0 :: is).getLast?.getD i0) + 1 - i0 from by rw [hpost, ← hhead]; omega]
    rw [show List.drop ((List.takeWhile (fun n => !isTag n) (cutAtB sibs)).length) (cutAtB sibs)
          = List.drop i0 (cutAtB sibs) from by rw [← hhead]]
    rw [htake, hdrop]

theorem neOfGet {α : Type} {l1 l2 : List α} (i : Nat) (h : l1[i]? ≠ l2[i]?) : l1 ≠ l2 :=
  fun he => h (by rw [he])

theorem abbrevMsg_getTen (s : List Char) : (abbrevMsg s)[10]? = some 'a' := by
  rw [abbrevMsg, List.append_assoc,
    List.getElem?_append_left (by decide : (10 : Nat) < ("Could not abbreviate '".data).length)]
  decide

theorem abbrevMsg_getZero (s : List Char) : (abbrevMsg s)[0]? = some 'C' := by
  rw [abbrevMsg, List.append_assoc,
    List.getElem?_append_left (by decide : (0 : Nat) < ("Could not abbreviate '".data).length)]
  decide

theorem unknownTagMsg_getZero (t : List Char) : (unknownTagMsg t)[0]? = some 'F' := by
  rw [unknownTagMsg, List.append_assoc,
    List.getElem?_append_left (by decide : (0 : Nat) < ("Found unknown tag '".data).length)]
  decide

theorem unknownDescMsg_getZero (t : List Char) : (unknownDescMsg t)[0]? = some 'F' := by
  rw [unknownDescMsg, List.append_assoc,
    List.getElem?_append_left (by decide : (0 : Nat) < ("Found unknown tag '".data).length)]
  decide

theorem abbrevMsg_ne_school (s : List Char) : abbrevMsg s ≠ Spells.schoolMsg := by
  apply neOfGet 10
  rw [abbrevMsg_getTen]
  decide

theorem abbrevMsg_ne_noATE (s : List Char) : abbrevMsg s ≠ Spells.noATEMsg := by
  apply neOfGet 0
  rw [abbrevMsg_getZero]
  decide

theorem unknownTagMsg_ne_school (t : List Char) : unknownTagMsg t ≠ Spells.schoolMsg := by
  apply neOfGet 0
  rw [unknownTagMsg_getZero]
  decide

theorem unknownTagMsg_ne_noATE (t : List Char) : unknownTagMsg t ≠ Spells.noATEMsg := by
  apply neOfGet 0
  rw [unknownTagMsg_getZero]
  decide

theorem unknownDescMsg_ne_school (t : List Char) : unknownDescMsg t ≠ Spells.schoolMsg := by
  apply neOfGet 0
  rw [unknownDescMsg_getZero]
  decide

theorem unknownDescMsg_ne_noATE (t : List Char) : unknownDescMsg t ≠ Spells.noATEMsg := by
  apply neOfGet 0
  rw [unknownDescMsg_getZero]
  decide

theorem abbreviate_warns (n : List Char) :
    (Spells.abbreviate n).2 = [] ∨ (Spells.abbreviate n).2 = [abbrevMsg n] := by
  rw [Spells.abbreviate, abbreviateWith]
  cases dictGet Spells.abbreviations n with
  | ok v => exact Or.inl rfl
  | error e => exact Or.inr rfl

theorem sourceFromSpan_warns (span : List Node) :
    (Spells.sourceFromSpan span).2 = [] ∨
    (Spells.sourceFromSpan span).2
      = ["Could not find Source tag. Skipping element 'source'".data] ∨
    (Spells.sourceFromSpan span).2
      = ["No sources detected. Skipping element 'source'.".data] ∨
    ∃ s, (Spells.sourceFromSpan span).2 = [abbrevMsg s] := by
  cases hf : findLabeled "b".data "Source".data span with
  | none =>
    simp only [Spells.sourceFromSpan, hf]
    exact Or.inr (Or.inl trivial)
  | some i =>
    simp only [Spells.sourceFromSpan, hf]
    cases hc : Spells.collectSources (List.drop (i + 1) span) with
    | nil =>
      simp only [hc]
      exact Or.inr (Or.inr (Or.inl trivial))
    | cons s0 rest =>
      by_cases hp : containsSub "PRPG Core Rulebook".data (joinL (s0 :: rest)) = true
      · simp only [hp, if_true]
        exact Or.inl trivial
      · rcases hab : Spells.abbreviate (sliceToPg s0) with ⟨a, w⟩
        rcases abbreviate_warns (sliceToPg s0) with h | h <;> rw [hab] at h <;>
          simp only at h <;> subst h
        · left
          simp [hp, hab]
        · right; right; right
          exact ⟨sliceToPg s0, by simp [hp, hab]⟩
theorem schoolFromSpan_warns (span : List Node) :
    (Spells.schoolFromSpan span).2 = [] ∨
    (Spells.schoolFromSpan span).2 = [Spells.schoolMsg] := by
  rw [Spells.schoolFromSpan]
  cases findLabeled "b".data "School".data span with
  | none => exact Or.inr rfl
  | some i => exact Or.inl rfl

theorem getTextSimple_none_warns {span : List Node} {label wn : List Char}
    {ws : List (List Char)} (h : Spells.getTextSimple span label (some wn) = (none, ws)) :
    ws = [simpleTagMsg label wn] := by
  rw [Spells.getTextSimple] at h
  cases hf : findLabeled "b".data label span with
  | none => rw [hf] at h; simp at h; exact h.symm
  | some i =>
    rw [hf] at h
    simp only [] at h
    cases hh : (List.drop (i + 1) span).head? with
    | none => rw [hh] at h; simp at h
    | some sib => rw [hh] at h; simp at h

theorem getTextSimple_some_warns {span : List Node} {label : List Char}
    {wn : Option (List Char)} {t : List Char} {ws : List (List Char)}
    (h : Spells.getTextSimple span label wn = (some t, ws)) : ws = [] := by
  rw [Spells.getTextSimple.eq_def] at h
  cases hf : findLabeled "b".data label span with
  | none =>
    rw [hf] at h
    cases wn with
    | none => simp at h
    | some w => simp at h
  | some i =>
    rw [hf] at h
    simp only [] at h
    cases hh : (List.drop (i + 1) span).head? with
    | none => rw [hh] at h; simp at h; exact h.2
    | some sib => rw [hh] at h; simp at h; exact h.2

theorem classesFromSpan_warns {span : List Node} {o : Option (List (List Char × Int))}
    {w : List (List Char)} (h : Spells.classesFromSpan span = .ok (o, w)) :
    w = [] ∨ w = [simpleTagMsg "Level".data "classes".data] := by
  rw [Spells.classesFromSpan] at h
  rcases hg : Spells.getTextSimple span "Level".data (some "classes".data) with ⟨ot, ws⟩
  rw [hg] at h
  cases ot with
  | none =>
    right
    rw [← getTextSimple_none_warns hg]
    simp at h
    exact h.2.symm
  | some t =>
    left
    have h2 : (do
        let cd ← Spells.classesOfText t
        Except.ok (some cd, ([] : List (List Char)))) = Except.ok (o, w) := h
    cases hc : Spells.classesOfText t with
    | ok cd =>
      rw [hc] at h2
      have h3 : (Except.ok (some cd, ([] : List (List Char))) : Except (List Char)
          (Option (List (List Char × Int)) × List (List Char))) = Except.ok (o, w) := h2
      injection h3 with h4
      injection h4 with ha hb
      exact hb.symm
    | error e =>
      rw [hc] at h2
      have h3 : (Except.error e : Except (List Char)
          (Option (List (List Char × Int)) × List (List Char))) = Except.ok (o, w) := h2
      simp at h3

theorem timeFromSpan_warns (span : List Node) :
    (Spells.timeFromSpan span).2 = [] ∨
    (Spells.timeFromSpan span).2 = [simpleTagMsg "Casting Time".data "time".data] := by
  rcases hg : Spells.getTextSimple span "Casting Time".data (some "time".data) with ⟨ot, ws⟩
  cases ot with
  | none =>
    right
    rw [Spells.timeFromSpan, hg]
    exact getTextSimple_none_warns hg
  | some t =>
    left
    rw [Spells.timeFromSpan, hg]

theorem componentsFromSpan_warns (span : List Node) :
    (Spells.componentsFromSpan span).2 = [] ∨
    (Spells.componentsFromSpan span).2
      = [simpleTagMsg "Components".data "components".data] := by
  rcases hg : Spells.getTextSimple span "Components".data (some "components".data) with ⟨ot, ws⟩
  cases ot with
  | none =>
    right
    rw [Spells.componentsFromSpan, hg]
    exact getTextSimple_none_warns hg
  | some t =>
    left
    rw [Spells.componentsFromSpan, hg]

theorem rangeFromSpan_warns (span : List Node) :
    (Spells.rangeFromSpan span).2 = [] ∨
    (Spells.rangeFromSpan span).2 = [simpleTagMsg "Range".data "range".data] := by
  rcases hg : Spells.getTextSimple span "Range".data (some "range".data) with ⟨ot, ws⟩
  cases ot with
  | none =>
    right
    rw [Spells.rangeFromSpan, hg]
    exact getTextSimple_none_warns hg
  | some t =>
    left
    rw [Spells.rangeFromSpan, hg]
    by_cases h1 : "close".data.isPrefixOf (texify (stripBoth " ;.".data t)) = true
    · simp [h1]
    · by_cases h2 : "medium".data.isPrefixOf (texify (stripBoth " ;.".data t)) = true
      · simp [h1, h2]
      · by_cases h3 : "long".data.isPrefixOf (texify (stripBoth " ;.".data t)) = true
        · simp [h1, h2, h3]
        · simp [h1, h2, h3]

theorem abbrevAll_warns : ∀ (ks : List (List Char)) (x : List Char),
    x ∈ (Spells.abbrevAll ks).2 → ∃ s, x = abbrevMsg s := by
  intro ks
  induction ks with
  | nil => intro x h; simp [Spells.abbrevAll] at h
  | cons k rest ih =>
    intro x h
    rw [Spells.abbrevAll] at h
    rcases hab : Spells.abbreviate k with ⟨a, w⟩
    rw [hab] at h
    rcases hr : Spells.abbrevAll rest with ⟨as, ws⟩
    rw [hr] at h
    simp only [] at h
    rcases List.mem_append.mp h with h | h
    · rcases abbreviate_warns k with hw | hw <;> rw [hab] at hw <;> simp only [] at hw <;>
        subst hw
      · simp at h
      · simp at h
        exact ⟨k, h⟩
    · exact ih x (by rw [hr]; exact h)

theorem levelGroups_warns : ∀ (cls : List (List Char × Int)) (Ls : List Int) (x : List Char),
    x ∈ (Spells.levelGroups cls Ls).2 → ∃ s, x = abbrevMsg s := by
  intro cls Ls
  induction Ls with
  | nil => intro x h; simp [Spells.levelGroups] at h
  | cons L rest ih =>
    intro x h
    rw [Spells.levelGroups] at h
    rcases ha : Spells.abbrevAll ((cls.filter (fun kv => kv.2 = L)).map (·.1)) with ⟨cl, w⟩
    rw [ha] at h
    rcases hr : Spells.levelGroups cls rest with ⟨grps, ws⟩
    rw [hr] at h
    simp only [] at h
    rcases List.mem_append.mp h with h | h
    · exact abbrevAll_warns _ x (by rw [ha]; exact h)
    · exact ih x (by rw [hr]; exact h)

theorem levelFromClasses_warns {cd : List (List Char × Int)} {v : JValue}
    {w : List (List Char)} (h : Spells.levelFromClasses cd = .ok (v, w)) :
    ∀ x ∈ w, ∃ s, x = abbrevMsg s := by
  intro x hx
  rw [Spells.levelFromClasses] at h
  cases hmc : Spells.mostCommon (Spells.countsOf (cd.map (·.2))) with
  | nil => rw [hmc] at h; simp at h
  | cons x1 xs =>
    rw [hmc] at h
    cases xs with
    | nil =>
      simp only [] at h
      injection h with h1
      injection h1 with ha hb
      subst hb
      simp at hx
    | cons x2 rest =>
      simp only [] at h
      by_cases hcond : 2 * x1.2 ≥ ((x1 :: x2 :: rest).map (·.2)).sum ∧ x2.2 < x1.2
      · rw [if_pos hcond] at h
        have h2 : (Except.ok (JValue.s (intStr x1.1 ++ " (".data
              ++ joinSep ", ".data (Spells.levelGroups cd (((x1 :: x2 :: rest).map (·.1)).tail)).1
              ++ ")".data),
            (Spells.levelGroups cd (((x1 :: x2 :: rest).map (·.1)).tail)).2)
            : Except (List Char) (JValue × List (List Char))) = .ok (v, w) := h
        injection h2 with h3
        injection h3 with ha hb
        subst hb
        exact levelGroups_warns cd _ x hx
      · rw [if_neg hcond] at h
        have h2 : (Except.ok (JValue.s (joinSep ", ".data
              (Spells.levelGroups cd ((x1 :: x2 :: rest).map (·.1))).1),
            (Spells.levelGroups cd ((x1 :: x2 :: rest).map (·.1))).2)
            : Except (List Char) (JValue × List (List Char))) = .ok (v, w) := h
        injection h2 with h3
        injection h3 with ha hb
        subst hb
        exact levelGroups_warns cd _ x hx

theorem parseBasicList_warns : ∀ (cs : List Node) (x : List Char),
    x ∈ (parseBasicList cs).2 → ∃ t, x = unknownTagMsg t := by
  intro cs
  induction cs with
  | nil => intro x h; simp [parseBasicList] at h
  | cons n rest ih =>
    intro x h
    cases n with
    | text s =>
      rw [parseBasicList] at h
      rcases hr : parseBasicList rest with ⟨t, ws⟩
      rw [hr] at h
      exact ih x (by rw [hr]; exact h)
    | elem nm cs2 =>
      rw [parseBasicList] at h
      rcases hr : parseBasicList rest with ⟨t, ws⟩
      rw [hr] at h
      have h2 : x ∈ (if nm = "b".data then (texbf (nodesText cs2) ++ t, ws)
          else if nm = "i".data then (texit (nodesText cs2) ++ t, ws)
          else (nodesText cs2 ++ t, unknownTagMsg (nodesText cs2) :: ws)).2 := h
      by_cases hb : nm = "b".data
      · rw [if_pos hb] at h2
        exact ih x (by rw [hr]; exact h2)
      · rw [if_neg hb] at h2
        by_cases hi : nm = "i".data
        · rw [if_pos hi] at h2
          exact ih x (by rw [hr]; exact h2)
        · rw [if_neg hi] at h2
          have h3 : x ∈ unknownTagMsg (nodesText cs2) :: ws := h2
          rcases List.mem_cons.mp h3 with rfl | h4
          · exact ⟨nodesText cs2, rfl⟩
          · exact ih x (by rw [hr]; exact h4)

theorem parseBasicText_warns {n : Node} {r : List Char × List (List Char)}
    (h : parseBasicText n = .ok r) : ∀ x ∈ r.2, ∃ t, x = unknownTagMsg t := by
  intro x hx
  cases n with
  | text s => rw [parseBasicText] at h; simp at h
  | elem nm cs =>
    rw [parseBasicText] at h
    injection h with h1
    subst h1
    exact parseBasicList_warns cs x hx

theorem itemTexts_warns : ∀ (ns : List Node) (r : List (List Char) × List (List Char)),
    itemTexts ns = .ok r → ∀ x ∈ r.2, ∃ t, x = unknownTagMsg t := by
  intro ns
  induction ns with
  | nil =>
    intro r h x hx
    rw [itemTexts] at h
    injection h with h1
    subst h1
    simp at hx
  | cons n rest ih =>
    intro r h x hx
    rw [itemTexts] at h
    cases hp : parseBasicText n with
    | error e =>
      rw [hp] at h
      have h2 : (Except.error e : Except (List Char)
          (List (List Char) × List (List Char))) = .ok r := h
      simp at h2
    | ok p =>
      rw [hp] at h
      cases hq : itemTexts rest with
      | error e =>
        rw [hq] at h
        have h2 : (Except.error e : Except (List Char)
            (List (List Char) × List (List Char))) = .ok r := h
        simp at h2
      | ok q =>
        rw [hq] at h
        have h2 : (Except.ok (p.1 :: q.1, p.2 ++ q.2) : Except (List Char)
            (List (List Char) × List (List Char))) = .ok r := h
        injection h2 with h3
        subst h3
        rcases List.mem_append.mp hx with hx | hx
        · exact parseBasicText_warns hp x hx
        · exact ih q hq x hx

theorem ulProcess_warns {cs : List Node} {r : List Char × List (List Char)}
    (h : ulProcess cs = .ok r) : ∀ x ∈ r.2, ∃ t, x = unknownTagMsg t := by
  intro x hx
  rw [ulProcess] at h
  cases hq : itemTexts cs with
  | error e =>
    rw [hq] at h
    have h2 : (Except.error e : Except (List Char)
        (List Char × List (List Char))) = .ok r := h
    simp at h2
  | ok q =>
    rw [hq] at h
    have h2 : (Except.ok ('\n' :: joinSep "\n".data q.1 ++ ['\n'], q.2) : Except (List Char)
        (List Char × List (List Char))) = .ok r := h
    injection h2 with h3
    subst h3
    exact itemTexts_warns cs q hq x hx

theorem tableRows_warns : ∀ (ns : List Node) (r : List Char × List (List Char)),
    tableRows ns = .ok r → ∀ x ∈ r.2, ∃ t, x = unknownTagMsg t := by
  intro ns
  induction ns with
  | nil =>
    intro r h x hx
    rw [tableRows] at h
    injection h with h1
    subst h1
    simp at hx
  | cons n rest ih =>
    intro r h x hx
    cases n with
    | text s =>
      rw [tableRows] at h
      exact ih r h x hx
    | elem nm rcs =>
      rw [tableRows] at h
      cases hp : itemTexts rcs with
      | error e =>
        rw [hp] at h
        have h2 : (Except.error e : Except (List Char)
            (List Char × List (List Char))) = .ok r := h
        simp at h2
      | ok p =>
        rw [hp] at h
        cases hq : tableRows rest with
        | error e =>
          rw [hq] at h
          have h2 : (Except.error e : Except (List Char)
              (List Char × List (List Char))) = .ok r := h
          simp at h2
        | ok q =>
          rw [hq] at h
          have h2 : (Except.ok (joinSep "&".data p.1 ++ "\\\\".data ++ q.1, p.2 ++ q.2)
              : Except (List Char) (List Char × List (List Char))) = .ok r := h
          injection h2 with h3
          subst h3
          rcases List.mem_append.mp hx with hx | hx
          · exact itemTexts_warns rcs p hp x hx
          · exact ih q hq x hx

theorem tableToLatex_warns {cs : List Node} {r : List Char × List (List Char)}
    (h : tableToLatex cs = .ok r) : ∀ x ∈ r.2, ∃ t, x = unknownTagMsg t := by
  intro x hx
  rw [tableToLatex] at h
  cases hf : findElemL "tr".data cs with
  | none =>
    rw [hf] at h
    simp at h
  | some tr =>
    rw [hf] at h
    cases hq : tableRows cs with
    | error e =>
      rw [hq] at h
      have h2 : (Except.error e : Except (List Char)
          (List Char × List (List Char))) = .ok r := h
      simp at h2
    | ok q =>
      rw [hq] at h
      cases tr with
      | text s =>
        have h2 : (Except.ok ("\\begin\x7btabular\x7d".data
            ++ ('\x7b' :: List.replicate 0 'c' ++ ['\x7d'])
            ++ q.1 ++ "\\end\x7btabular\x7d".data, q.2)
            : Except (List Char) (List Char × List (List Char))) = .ok r := h
        injection h2 with h3
        subst h3
        exact tableRows_warns cs q hq x hx
      | elem nm2 tcs =>
        have h2 : (Except.ok ("\\begin\x7btabular\x7d".data
            ++ ('\x7b' :: List.replicate tcs.length 'c' ++ ['\x7d'])
            ++ q.1 ++ "\\end\x7btabular\x7d".data, q.2)
            : Except (List Char) (List Char × List (List Char))) = .ok r := h
        injection h2 with h3
        subst h3
        exact tableRows_warns cs q hq x hx

theorem descWalk_warns : ∀ (ns : List Node) (r : List (List Char) × List (List Char)),
    Spells.descWalk ns = .ok r → ∀ x ∈ r.2,
    (∃ t, x = unknownTagMsg t) ∨ (∃ nm, x = unknownDescMsg nm) := by
  intro ns
  induction ns with
  | nil =>
    intro r h x hx
    rw [Spells.descWalk] at h
    injection h with h1
    subst h1
    simp at hx
  | cons n rest ih =>
    intro r h x hx
    cases n with
    | text s =>
      rw [Spells.descWalk] at h
      cases hr : Spells.descWalk rest with
      | error e =>
        rw [hr] at h
        have h2 : (Except.error e : Except (List Char)
            (List (List Char) × List (List Char))) = .ok r := h
        simp at h2
      | ok p =>
        rw [hr] at h
        have h2 : (Except.ok (s :: p.1, p.2) : Except (List Char)
            (List (List Char) × List (List Char))) = .ok r := h
        injection h2 with h3
        subst h3
        exact ih p hr x hx
    | elem nm cs =>
      rw [Spells.descWalk] at h
      by_cases hh : nm = "h3".data ∨ nm = "h2".data ∨ nm = "h1".data
      · rw [if_pos hh] at h
        injection h with h1
        subst h1
        simp at hx
      · rw [if_neg hh] at h
        by_cases hbr : nm = "br".data
        · rw [if_pos hbr] at h
          cases hr : Spells.descWalk rest with
          | error e =>
            rw [hr] at h
            have h2 : (Except.error e : Except (List Char)
                (List (List Char) × List (List Char))) = .ok r := h
            simp at h2
          | ok p =>
            rw [hr] at h
            have h2 : (Except.ok ("\\\\".data :: p.1, p.2) : Except (List Char)
                (List (List Char) × List (List Char))) = .ok r := h
            injection h2 with h3
            subst h3
            exact ih p hr x hx
        · rw [if_neg hbr] at h
          by_cases hb : nm = "b".data
          · rw [if_pos hb] at h
            cases hr : Spells.descWalk rest with
            | error e =>
              rw [hr] at h
              have h2 : (Except.error e : Except (List Char)
                  (List (List Char) × List (List Char))) = .ok r := h
              simp at h2
            | ok p =>
              rw [hr] at h
              have h2 : (Except.ok (texbf (nodesText cs) :: p.1, p.2) : Except (List Char)
                  (List (List Char) × List (List Char))) = .ok r := h
              injection h2 with h3
              subst h3
              exact ih p hr x hx
          · rw [if_neg hb] at h
            by_cases hi : nm = "i".data
            · rw [if_pos hi] at h
              cases hr : Spells.descWalk rest with
              | error e =>
                rw [hr] at h
                have h2 : (Except.error e : Except (List Char)
                    (List (List Char) × List (List Char))) = .ok r := h
                simp at h2
              | ok p =>
                rw [hr] at h
                have h2 : (Except.ok (texit (nodesText cs) :: p.1, p.2) : Except (List Char)
                    (List (List Char) × List (List Char))) = .ok r := h
                injection h2 with h3
                subst h3
                exact ih p hr x hx
            · rw [if_neg hi] at h
              by_cases hul : nm = "ul".data
              · rw [if_pos hul] at h
                cases hu : ulProcess cs with
                | error e =>
                  rw [hu] at h
                  have h2 : (Except.error e : Except (List Char)
                      (List (List Char) × List (List Char))) = .ok r := h
                  simp at h2
                | ok u =>
                  rw [hu] at h
                  cases hr : Spells.descWalk rest with
                  | error e =>
                    rw [hr] at h
                    have h2 : (Except.error e : Except (List Char)
                        (List (List Char) × List (List Char))) = .ok r := h
                    simp at h2
                  | ok p =>
                    rw [hr] at h
                    have h2 : (Except.ok (u.1 :: p.1, u.2 ++ p.2) : Except (List Char)
                        (List (List Char) × List (List Char))) = .ok r := h
                    injection h2 with h3
                    subst h3
                    rcases List.mem_append.mp hx with hx | hx
                    · exact Or.inl (ulProcess_warns hu x hx)
                    · exact ih p hr x hx
              · rw [if_neg hul] at h
                by_cases ht : nm = "table".data
                · rw [if_pos ht] at h
                  cases hu : tableToLatex cs with
                  | error e =>
                    rw [hu] at h
                    have h2 : (Except.error e : Except (List Char)
                        (List (List Char) × List (List Char))) = .ok r := h
                    simp at h2
                  | ok u =>
                    rw [hu] at h
                    cases hr : Spells.descWalk rest with
                    | error e =>
                      rw [hr] at h
                      have h2 : (Except.error e : Except (List Char)
                          (List (List Char) × List (List Char))) = .ok r := h
                      simp at h2
                    | ok p =>
                      rw [hr] at h
                      have h2 : (Except.ok (u.1 :: p.1, u.2 ++ p.2) : Except (List Char)
                          (List (List Char) × List (List Char))) = .ok r := h
                      injection h2 with h3
                      subst h3
                      rcases List.mem_append.mp hx with hx | hx
                      · exact Or.inl (tableToLatex_warns hu x hx)
                      · exact ih p hr x hx
                · rw [if_neg ht] at h
                  cases hr : Spells.descWalk rest with
                  | error e =>
                    rw [hr] at h
                    have h2 : (Except.error e : Except (List Char)
                        (List (List Char) × List (List Char))) = .ok r := h
                    simp at h2
                  | ok p =>
                    rw [hr] at h
                    have h2 : (Except.ok (nodesText cs :: p.1, unknownDescMsg nm :: p.2)
                        : Except (List Char)
                          (List (List Char) × List (List Char))) = .ok r := h
                    injection h2 with h3
                    subst h3
                    rcases List.mem_cons.mp hx with rfl | hx
                    · exact Or.inr ⟨nm, rfl⟩
                    · exact ih p hr x hx

theorem descriptionFromSpan_warns {span : List Node} {o : Option (List Char)}
    {w : List (List Char)} (h : Spells.descriptionFromSpan span = .ok (o, w)) :
    ∀ x ∈ w, x = "Could not find Description tag. Skipping element 'description'".data ∨
      (∃ t, x = unknownTagMsg t) ∨ (∃ nm, x = unknownDescMsg nm) := by
  intro x hx
  rw [Spells.descriptionFromSpan] at h
  cases hf : findLabeled "h3".data "Description".data span with
  | none =>
    rw [hf] at h
    injection h with h1
    injection h1 with ha hb
    subst hb
    rcases List.mem_cons.mp hx with rfl | hx
    · exact Or.inl rfl
    · simp at hx
  | some i =>
    rw [hf] at h
    have h0 : (do
        let p ← Spells.descWalk (List.drop (i + 1) span)
        match p with
        | (ts, ws) => Except.ok (some (texify (joinL ts)), ws)) = Except.ok (o, w) := h
    cases hr : Spells.descWalk (List.drop (i + 1) span) with
    | error e =>
      rw [hr] at h0
      have h2 : (Except.error e : Except (List Char)
          (Option (List Char) × List (List Char))) = .ok (o, w) := h0
      simp at h2
    | ok p =>
      rw [hr] at h0
      have h2 : (Except.ok (some (texify (joinL p.1)), p.2) : Except (List Char)
          (Option (List Char) × List (List Char))) = .ok (o, w) := h0
      injection h2 with h3
      injection h3 with ha hb
      subst hb
      exact Or.inr (descWalk_warns _ p hr x hx)

theorem exceptBindOk {ε α β : Type} (a : α) (f : α → Except ε β) :
    ((Except.ok a : Except ε α) >>= f) = f a := rfl

theorem exceptBindErr {ε α β : Type} (e : ε) (f : α → Except ε β) :
    ((Except.error e : Except ε α) >>= f) = Except.error e := rfl

theorem recLookup_append (k : List Char) (a b : Record) :
    recLookup k (a ++ b)
      = match recLookup k a with | some v => some v | none => recLookup k b := by
  induction a with
  | nil => rfl
  | cons p rest ih =>
    rcases p with ⟨k', v⟩
    by_cases h : k' = k <;> simp [recLookup, h, ih]

theorem recLookup_optS_ne {k k' : List Char} (h : k' ≠ k) (o : Option (List Char)) :
    recLookup k (optS k' o) = none := by
  cases o <;> simp [optS, recLookup, h]

theorem count_singleton_ne {a m : List Char} (h : a ≠ m) : List.count m [a] = 0 := by
  simp [List.count_cons, h]

theorem count_zero_of_shapes {m : List Char} {l : List (List Char)}
    (h : ∀ x ∈ l, x ≠ m) : List.count m l = 0 :=
  List.count_eq_zero.mpr (fun hm => (h m hm) rfl)

theorem notMem_of_shapes {m : List Char} {l : List (List Char)}
    (h : ∀ x ∈ l, x ≠ m) : m ∉ l := fun hm => (h m hm) rfl

theorem exceptPureBind {ε α β : Type} (a : α) (f : α → Except ε β) :
    ((pure a : Except ε α) >>= f) = f a := rfl

theorem recLookup_nil (k : List Char) : recLookup k ([] : Record) = none := rfl

theorem recLookup_cons_ne {k' k : List Char} (h : k' ≠ k) (v : JValue) (rest : Record) :
    recLookup k ((k', v) :: rest) = recLookup k rest := by
  simp [recLookup, h]

theorem recLookup_cons_eq (k : List Char) (v : JValue) (rest : Record) :
    recLookup k ((k, v) :: rest) = some v := by
  simp [recLookup]

theorem recLookup_append_none {k : List Char} {a : Record} (h : recLookup k a = none)
    (b : Record) : recLookup k (a ++ b) = recLookup k b := by
  rw [recLookup_append, h]

theorem czero_and_nmem {w : List (List Char)}
    (h : ∀ x ∈ w, x ≠ Spells.schoolMsg ∧ x ≠ Spells.noATEMsg) :
    List.count Spells.schoolMsg w = 0 ∧ Spells.noATEMsg ∉ w :=
  ⟨count_zero_of_shapes (fun x hx => (h x hx).1),
   notMem_of_shapes (fun x hx => (h x hx).2)⟩

theorem c2_spells_core (span : List Node) (name dur : List Char)
    (so scho ti co rn : Option (List Char)) (w1 w2 w5 w6 w7 : List (List Char))
    (lvlRec : Record) (w3 w4 w9 : List (List Char)) (desc : Option (List Char))
    (hsrc : Spells.sourceFromSpan span = (so, w1))
    (hsch : Spells.schoolFromSpan span = (scho, w2))
    (htim : Spells.timeFromSpan span = (ti, w5))
    (hcom : Spells.componentsFromSpan span = (co, w6))
    (hrng : Spells.rangeFromSpan span = (rn, w7))
    (hL1 : recLookup "school".data lvlRec = none)
    (hL2 : recLookup "area".data lvlRec = none)
    (hw3 : ∀ x ∈ w3, x ≠ Spells.schoolMsg ∧ x ≠ Spells.noATEMsg)
    (hw4 : ∀ x ∈ w4, x ≠ Spells.schoolMsg ∧ x ≠ Spells.noATEMsg)
    (hw9 : ∀ x ∈ w9, x ≠ Spells.schoolMsg ∧ x ≠ Spells.noATEMsg) :
    ((findLabeled "b".data "School".data span = none →
        recLookup "school".data (optS "name".data (some name) ++ optS "source".data so
            ++ optS "school".data scho ++ lvlRec ++ optS "time".data ti
            ++ optS "components".data co ++ optS "range".data rn
            ++ [("area".data, jv (Spells.areaFromSpan span)),
                ("target".data, jv (Spells.targetFromSpan span)),
                ("effect".data, jv (Spells.effectFromSpan span))]
            ++ [("duration".data, JValue.s dur),
                ("save".data, JValue.s (Spells.saveFromSpan span)),
                ("sr".data, JValue.s (Spells.srFromSpan span))]
            ++ optS "description".data desc) = none ∧
        List.count Spells.schoolMsg (w1 ++ w2 ++ w3 ++ w4 ++ w5 ++ w6 ++ w7
            ++ (if Spells.areaFromSpan span = none ∧ Spells.targetFromSpan span = none
                  ∧ Spells.effectFromSpan span = none then [Spells.noATEMsg] else [])
            ++ w9) = 1) ∧
     recLookup "area".data (optS "name".data (some name) ++ optS "source".data so
            ++ optS "school".data scho ++ lvlRec ++ optS "time".data ti
            ++ optS "components".data co ++ optS "range".data rn
            ++ [("area".data, jv (Spells.areaFromSpan span)),
                ("target".data, jv (Spells.targetFromSpan span)),
                ("effect".data, jv (Spells.effectFromSpan span))]
            ++ [("duration".data, JValue.s dur),
                ("save".data, JValue.s (Spells.saveFromSpan span)),
                ("sr".data, JValue.s (Spells.srFromSpan span))]
            ++ optS "description".data desc)
        = some (jv (Spells.areaFromSpan span)) ∧
     (Spells.noATEMsg ∈ (w1 ++ w2 ++ w3 ++ w4 ++ w5 ++ w6 ++ w7
            ++ (if Spells.areaFromSpan span = none ∧ Spells.targetFromSpan span = none
                  ∧ Spells.effectFromSpan span = none then [Spells.noATEMsg] else [])
            ++ w9) ↔
       (Spells.areaFromSpan span = none ∧ Spells.targetFromSpan span = none ∧
        Spells.effectFromSpan span = none))) := by
  have hN1 : ∀ x ∈ w1, x ≠ Spells.schoolMsg ∧ x ≠ Spells.noATEMsg := by
    have hs := sourceFromSpan_warns span
    rw [hsrc] at hs
    intro x hx
    rcases hs with h' | h' | h' | ⟨s, h'⟩
    · rw [show w1 = [] from h'] at hx
      simp at hx
    · rw [show w1 = ["Could not find Source tag. Skipping element 'source'".data] from h'] at hx
      have hx' := List.mem_singleton.mp hx
      subst hx'
      exact ⟨by decide, by decide⟩
    · rw [show w1 = ["No sources detected. Skipping element 'source'.".data] from h'] at hx
      have hx' := List.mem_singleton.mp hx
      subst hx'
      exact ⟨by decide, by decide⟩
    · rw [show w1 = [abbrevMsg s] from h'] at hx
      have hx' := List.mem_singleton.mp hx
      subst hx'
      exact ⟨abbrevMsg_ne_school s, abbrevMsg_ne_noATE s⟩
  have hM2 : Spells.noATEMsg ∉ w2 := by
    have hs := schoolFromSpan_warns span
    rw [hsch] at hs
    rcases hs with h' | h'
    · rw [show w2 = [] from h']
      simp
    · rw [show w2 = [Spells.schoolMsg] from h']
      decide
  have hN5 : ∀ x ∈ w5, x ≠ Spells.schoolMsg ∧ x ≠ Spells.noATEMsg := by
    have hs := timeFromSpan_warns span
    rw [htim] at hs
    intro x hx
    rcases hs with h' | h'
    · rw [show w5 = [] from h'] at hx
      simp at hx
    · rw [show w5 = [simpleTagMsg "Casting Time".data "time".data] from h'] at hx
      have hx' := List.mem_singleton.mp hx
      subst hx'
      exact ⟨by decide, by decide⟩
  have hN6 : ∀ x ∈ w6, x ≠ Spells.schoolMsg ∧ x ≠ Spells.noATEMsg := by
    have hs := componentsFromSpan_warns span
    rw [hcom] at hs
    intro x hx
    rcases hs with h' | h'
    · rw [show w6 = [] from h'] at hx
      simp at hx
    · rw [show w6 = [simpleTagMsg "Components".data "components".data] from h'] at hx
      have hx' := List.mem_singleton.mp hx
      subst hx'
      exact ⟨by decide, by decide⟩
  have hN7 : ∀ x ∈ w7, x ≠ Spells.schoolMsg ∧ x ≠ Spells.noATEMsg := by
    have hs := rangeFromSpan_warns span
    rw [hrng] at hs
    intro x hx
    rcases hs with h' | h'
    · rw [show w7 = [] from h'] at hx
      simp at hx
    · rw [show w7 = [simpleTagMsg "Range".data "range".data] from h'] at hx
      have hx' := List.mem_singleton.mp hx
      subst hx'
      exact ⟨by decide, by decide⟩
  have hcITE : List.count Spells.schoolMsg
      (if Spells.areaFromSpan span = none ∧ Spells.targetFromSpan span = none
         ∧ Spells.effectFromSpan span = none then [Spells.noATEMsg] else []) = 0 := by
    split
    · decide
    · rfl
  refine ⟨?_, ?_, ?_⟩
  · intro hsch0
    have hpair : (scho, w2) = (none, [Spells.schoolMsg]) := by
      rw [← hsch, Spells.schoolFromSpan, hsch0]
    have hscho : scho = none := congrArg Prod.fst hpair
    have hw2 : w2 = [Spells.schoolMsg] := congrArg Prod.snd hpair
    subst hscho
    subst hw2
    constructor
    · simp only [List.append_assoc, List.cons_append, List.nil_append]
      rw [recLookup_append_none (recLookup_optS_ne (show "name".data ≠ "school".data by decide) (some name)),
          recLookup_append_none (recLookup_optS_ne (show "source".data ≠ "school".data by decide) so),
          recLookup_append_none (show recLookup "school".data (optS "school".data none) = none from rfl),
          recLookup_append_none hL1,
          recLookup_append_none (recLookup_optS_ne (show "time".data ≠ "school".data by decide) ti),
          recLookup_append_none (recLookup_optS_ne (show "components".data ≠ "school".data by decide) co),
          recLookup_append_none (recLookup_optS_ne (show "range".data ≠ "school".data by decide) rn),
          recLookup_cons_ne (show "area".data ≠ "school".data by decide),
          recLookup_cons_ne (show "target".data ≠ "school".data by decide),
          recLookup_cons_ne (show "effect".data ≠ "school".data by decide),
          recLookup_cons_ne (show "duration".data ≠ "school".data by decide),
          recLookup_cons_ne (show "save".data ≠ "school".data by decide),
          recLookup_cons_ne (show "sr".data ≠ "school".data by decide)]
      exact recLookup_optS_ne (show "description".data ≠ "school".data by decide) desc
    · have hc1 : List.count Spells.schoolMsg w1 = 0 :=
        count_zero_of_shapes (fun x hx => (hN1 x hx).1)
      have hc3 : List.count Spells.schoolMsg w3 = 0 :=
        count_zero_of_shapes (fun x hx => (hw3 x hx).1)
      have hc4 : List.count Spells.schoolMsg w4 = 0 :=
        count_zero_of_shapes (fun x hx => (hw4 x hx).1)
      have hc5 : List.count Spells.schoolMsg w5 = 0 :=
        count_zero_of_shapes (fun x hx => (hN5 x hx).1)
      have hc6 : List.count Spells.schoolMsg w6 = 0 :=
        count_zero_of_shapes (fun x hx => (hN6 x hx).1)
      have hc7 : List.count Spells.schoolMsg w7 = 0 :=
        count_zero_of_shapes (fun x hx => (hN7 x hx).1)
      have hc9 : List.count Spells.schoolMsg w9 = 0 :=
        count_zero_of_shapes (fun x hx => (hw9 x hx).1)
      have hone : List.count Spells.schoolMsg [Spells.schoolMsg] = 1 := by decide
      simp only [List.count_append, hc1, hc3, hc4, hc5, hc6, hc7, hc9, hcITE, hone]
  · simp only [List.append_assoc, List.cons_append, List.nil_append]
    rw [recLookup_append_none (recLookup_optS_ne (show "name".data ≠ "area".data by decide) (some name)),
        recLookup_append_none (recLookup_optS_ne (show "source".data ≠ "area".data by decide) so),
        recLookup_append_none (recLookup_optS_ne (show "school".data ≠ "area".data by decide) scho),
        recLookup_append_none hL2,
        recLookup_append_none (recLookup_optS_ne (show "time".data ≠ "area".data by decide) ti),
        recLookup_append_none (recLookup_optS_ne (show "components".data ≠ "area".data by decide) co),
        recLookup_append_none (recLookup_optS_ne (show "range".data ≠ "area".data by decide) rn),
        recLookup_cons_eq]
  · have m1 : Spells.noATEMsg ∉ w1 := notMem_of_shapes (fun x hx => (hN1 x hx).2)
    have m3 : Spells.noATEMsg ∉ w3 := notMem_of_shapes (fun x hx => (hw3 x hx).2)
    have m4 : Spells.noATEMsg ∉ w4 := notMem_of_shapes (fun x hx => (hw4 x hx).2)
    have m5 : Spells.noATEMsg ∉ w5 := notMem_of_shapes (fun x hx => (hN5 x hx).2)
    have m6 : Spells.noATEMsg ∉ w6 := notMem_of_shapes (fun x hx => (hN6 x hx).2)
    have m7 : Spells.noATEMsg ∉ w7 := notMem_of_shapes (fun x hx => (hN7 x hx).2)
    have m9 : Spells.noATEMsg ∉ w9 := notMem_of_shapes (fun x hx => (hw9 x hx).2)
    have hiff : Spells.noATEMsg ∈
        (if Spells.areaFromSpan span = none ∧ Spells.targetFromSpan span = none
           ∧ Spells.effectFromSpan span = none then [Spells.noATEMsg] else []) ↔
        (Spells.areaFromSpan span = none ∧ Spells.targetFromSpan span = none ∧
         Spells.effectFromSpan span = none) := by
      by_cases hc : Spells.areaFromSpan span = none ∧ Spells.targetFromSpan span = none
          ∧ Spells.effectFromSpan span = none
      · rw [if_pos hc]
        simp [hc]
      · rw [if_neg hc]
        simp [hc]
    simp only [List.mem_append, m1, hM2, m3, m4, m5, m6, m7, m9, false_or, or_false]
    exact hiff

/-- C2 (counterexample): in the spell document `exSpellNoArea` the Area
label is absent, yet the assembled record contains the key "area" — with a
null value — and no diagnostic mentioning Area is emitted (the claim
prescribes an absent key and exactly one diagnostic). -/
theorem c2_counterexample_area_key_null :
    findLabeled "b".data "Area".data exSpellNoArea = none ∧
    (Spells.soup2dict exSpellNoArea).toOption.map
        (fun p => (recLookup "area".data p.1,
          p.2.countP (fun m => containsSub "Area".data m)))
      = some (some JValue.null, 0) := by
  constructor
  · decide
  · decide

/-- C2 (amended): what actually happens to optional fields. In the spells
assembler, a truly optional label behaves as claimed — when the School
label is absent the record has no "school" key and exactly one School
diagnostic is emitted — but the area/target/effect keys are ALWAYS present
(with a JSON null when the label is missing, since `json['area'] = area`
is unconditional), no per-field diagnostic exists for them, and the single
combined diagnostic appears exactly when all three are missing. In the
items assembler a record is only ever produced when the Construction
heading is present (a missing heading aborts assembly), so no emitted item
record ever omits the construction keys. -/
theorem c2_amended_optional_field_handling :
    (∀ (span : List Node) (r : Record) (w : List (List Char)),
      Spells.soup2dict span = .ok (r, w) →
      ((findLabeled "b".data "School".data span = none →
          recLookup "school".data r = none ∧ List.count Spells.schoolMsg w = 1) ∧
       recLookup "area".data r = some (jv (Spells.areaFromSpan span)) ∧
       (Spells.noATEMsg ∈ w ↔
         (Spells.areaFromSpan span = none ∧ Spells.targetFromSpan span = none ∧
          Spells.effectFromSpan span = none)))) ∧
    (∀ (span : List Node) (x : Record × List (List Char)),
      Items.soup2dict span = .ok x →
      (findLabeled "h3".data "Construction".data span).isSome = true) := by
  constructor
  · intro span r w h
    rw [Spells.soup2dict] at h
    rcases hsrc : Spells.sourceFromSpan span with ⟨so, w1⟩
    rcases hsch : Spells.schoolFromSpan span with ⟨scho, w2⟩
    rcases htim : Spells.timeFromSpan span with ⟨ti, w5⟩
    rcases hcom : Spells.componentsFromSpan span with ⟨co, w6⟩
    rcases hrng : Spells.rangeFromSpan span with ⟨rn, w7⟩
    simp only [hsrc, hsch, htim, hcom, hrng] at h
    cases hnm : Spells.nameFromSpan span with
    | error e =>
      rw [hnm] at h
      exact Except.noConfusion (show (Except.error e : Except (List Char)
          (Record × List (List Char))) = Except.ok (r, w) from h)
    | ok name =>
      simp only [hnm, exceptBindOk] at h
      cases hcl : Spells.classesFromSpan span with
      | error e =>
        rw [hcl] at h
        exact Except.noConfusion (show (Except.error e : Except (List Char)
            (Record × List (List Char))) = Except.ok (r, w) from h)
      | ok p3 =>
        rcases p3 with ⟨clsOpt, w3⟩
        simp only [hcl, exceptBindOk] at h
        have hw3x : ∀ x ∈ w3, x ≠ Spells.schoolMsg ∧ x ≠ Spells.noATEMsg := by
          intro x hx
          rcases classesFromSpan_warns hcl with h' | h'
          · subst h'
            simp at hx
          · subst h'
            have hx' := List.mem_singleton.mp hx
            subst hx'
            exact ⟨by decide, by decide⟩
        cases clsOpt with
        | none =>
          simp only [exceptPureBind] at h
          cases hdur : Spells.durationFromSpan span with
          | error e =>
            rw [hdur] at h
            exact Except.noConfusion (show (Except.error e : Except (List Char)
                (Record × List (List Char))) = Except.ok (r, w) from h)
          | ok dur =>
            simp only [hdur, exceptBindOk] at h
            cases hdesc : Spells.descriptionFromSpan span with
            | error e =>
              rw [hdesc] at h
              exact Except.noConfusion (show (Except.error e : Except (List Char)
                  (Record × List (List Char))) = Except.ok (r, w) from h)
            | ok p9 =>
              rcases p9 with ⟨desc, w9⟩
              simp only [hdesc, exceptBindOk] at h
              have hw9x : ∀ x ∈ w9, x ≠ Spells.schoolMsg ∧ x ≠ Spells.noATEMsg := by
                intro x hx
                rcases descriptionFromSpan_warns hdesc x hx with h' | ⟨t, h'⟩ | ⟨nm2, h'⟩
                · subst h'
                  exact ⟨by decide, by decide⟩
                · subst h'
                  exact ⟨unknownTagMsg_ne_school t, unknownTagMsg_ne_noATE t⟩
                · subst h'
                  exact ⟨unknownDescMsg_ne_school nm2, unknownDescMsg_ne_noATE nm2⟩
              injection h with h1
              injection h1 with hR hW
              subst hR
              subst hW
              exact c2_spells_core span name dur so scho ti co rn w1 w2 w5 w6 w7
                ([] : Record) w3 ([] : List (List Char)) w9 desc hsrc hsch htim hcom hrng
                rfl rfl hw3x (by simp) hw9x
        | some cd =>
          simp only [] at h
          cases hlv : Spells.levelFromClasses cd with
          | error e =>
            rw [hlv] at h
            exact Except.noConfusion (show (Except.error e : Except (List Char)
                (Record × List (List Char))) = Except.ok (r, w) from h)
          | ok p4 =>
            rcases p4 with ⟨lv, w4⟩
            simp only [hlv, exceptBindOk, exceptPureBind] at h
            have hw4x : ∀ x ∈ w4, x ≠ Spells.schoolMsg ∧ x ≠ Spells.noATEMsg := by
              intro x hx
              rcases levelFromClasses_warns hlv x hx with ⟨s, h'⟩
              subst h'
              exact ⟨abbrevMsg_ne_school s, abbrevMsg_ne_noATE s⟩
            cases hdur : Spells.durationFromSpan span with
            | error e =>
              rw [hdur] at h
              exact Except.noConfusion (show (Except.error e : Except (List Char)
                  (Record × List (List Char))) = Except.ok (r, w) from h)
            | ok dur =>
              simp only [hdur, exceptBindOk] at h
              cases hdesc : Spells.descriptionFromSpan span with
              | error e =>
                rw [hdesc] at h
                exact Except.noConfusion (show (Except.error e : Except (List Char)
                    (Record × List (List Char))) = Except.ok (r, w) from h)
              | ok p9 =>
                rcases p9 with ⟨desc, w9⟩
                simp only [hdesc, exceptBindOk] at h
                have hw9x : ∀ x ∈ w9, x ≠ Spells.schoolMsg ∧ x ≠ Spells.noATEMsg := by
                  intro x hx
                  rcases descriptionFromSpan_warns hdesc x hx with h' | ⟨t, h'⟩ | ⟨nm2, h'⟩
                  · subst h'
                    exact ⟨by decide, by decide⟩
                  · subst h'
                    exact ⟨unknownTagMsg_ne_school t, unknownTagMsg_ne_noATE t⟩
                  · subst h'
                    exact ⟨unknownDescMsg_ne_school nm2, unknownDescMsg_ne_noATE nm2⟩
                injection h with h1
                injection h1 with hR hW
                subst hR
                subst hW
                exact c2_spells_core span name dur so scho ti co rn w1 w2 w5 w6 w7
                  [("classes".data, JValue.obj cd), ("level".data, lv)] w3 w4 w9 desc
                  hsrc hsch htim hcom hrng rfl rfl hw3x hw4x hw9x
  · intro span x h
    cases hf : findLabeled "h3".data "Construction".data span with
    | some i => rfl
    | none =>
      exfalso
      rw [Items.soup2dict] at h
      rcases hs1 : Items.sourceFromSpan span with ⟨so, w1⟩
      rcases hs2 : Items.auraFromSpan span with ⟨au, w2⟩
      rcases hs3 : Items.clFromSpan span with ⟨cl, w3⟩
      rcases hs4 : Items.weightFromSpan span with ⟨wt, w6⟩
      simp only [hs1, hs2, hs3, hs4] at h
      cases hnm : Items.nameFromSpan span with
      | error e =>
        rw [hnm] at h
        exact Except.noConfusion (show (Except.error e : Except (List Char)
            (Record × List (List Char))) = Except.ok x from h)
      | ok name =>
        simp only [hnm, exceptBindOk] at h
        cases hsl : Items.slotFromSpan span with
        | error e =>
          rw [hsl] at h
          exact Except.noConfusion (show (Except.error e : Except (List Char)
              (Record × List (List Char))) = Except.ok x from h)
        | ok p4 =>
          rcases p4 with ⟨slot, w4⟩
          simp only [hsl, exceptBindOk] at h
          cases hpr : Items.priceFromSpan span with
          | error e =>
            rw [hpr] at h
            exact Except.noConfusion (show (Except.error e : Except (List Char)
                (Record × List (List Char))) = Except.ok x from h)
          | ok p5 =>
            rcases p5 with ⟨price, w5⟩
            simp only [hpr, exceptBindOk] at h
            cases hde : Items.descriptionFromSpan span with
            | error e =>
              rw [hde] at h
              exact Except.noConfusion (show (Except.error e : Except (List Char)
                  (Record × List (List Char))) = Except.ok x from h)
            | ok p7 =>
              rcases p7 with ⟨desc, w7⟩
              simp only [hde, exceptBindOk] at h
              have hcon : Items.constructionFromSpan span
                  = .ok (none, ["Could not find Construction tag. Skipping.".data]) := by
                rw [Items.constructionFromSpan, hf]
              simp only [hcon, exceptBindOk] at h
              exact Except.noConfusion h

/-- C2 witness: the amended theorem applied to the concrete spell document
`exSpellNoArea` (whose School label is absent) and to the concrete item
document `exItemAura` (whose Construction heading is present), with the
records and warning lists evaluated. -/
theorem c2_amended_optional_field_handling_witness :
    (recLookup "school".data
        [("name".data, JValue.s "Zap".data), ("area".data, JValue.null),
         ("target".data, JValue.s "one creature".data), ("effect".data, JValue.null),
         ("duration".data, JValue.s "1 round".data), ("save".data, JValue.s "none".data),
         ("sr".data, JValue.s "no".data)] = none ∧
     List.count Spells.schoolMsg
        ["Could not find Source tag. Skipping element 'source'".data,
         "Could not find School tag. Skipping element 'school'.".data,
         "Could not find Level tag. Skipping element 'classes'.".data,
         "Could not find Casting Time tag. Skipping element 'time'.".data,
         "Could not find Components tag. Skipping element 'components'.".data,
         "Could not find Range tag. Skipping element 'range'.".data,
         "Could not find Description tag. Skipping element 'description'".data] = 1) ∧
    (findLabeled "h3".data "Construction".data exItemAura).isSome = true :=
  ⟨(c2_amended_optional_field_handling.1 exSpellNoArea
      [("name".data, JValue.s "Zap".data), ("area".data, JValue.null),
       ("target".data, JValue.s "one creature".data), ("effect".data, JValue.null),
       ("duration".data, JValue.s "1 round".data), ("save".data, JValue.s "none".data),
       ("sr".data, JValue.s "no".data)]
      ["Could not find Source tag. Skipping element 'source'".data,
       "Could not find School tag. Skipping element 'school'.".data,
       "Could not find Level tag. Skipping element 'classes'.".data,
       "Could not find Casting Time tag. Skipping element 'time'.".data,
       "Could not find Components tag. Skipping element 'components'.".data,
       "Could not find Range tag. Skipping element 'range'.".data,
       "Could not find Description tag. Skipping element 'description'".data]
      (by rfl)).1 (by decide),
   c2_amended_optional_field_handling.2 exItemAura
      ([("name".data, JValue.s "Ring".data), ("source".data, JValue.s "Book".data),
        ("aura".data, JValue.s "faint—evil".data), ("cl".data, JValue.s "3".data),
        ("feat".data, JValue.s "Forge Ring".data), ("spells".data, JValue.null),
        ("other_requirements".data, JValue.null)],
       ["Could not abbreviate 'Book'".data,
        "Could not find Slot tag. Skipping element 'slot'".data,
        "Could not find Price tag. Skipping element 'price'".data,
        "Could not find Weight tag. Skipping element 'weight'".data,
        "Could not find Description tag. Skipping element 'description'".data])
      (by rfl)⟩

theorem insMC_perm (x : Int × Nat) : ∀ l : List (Int × Nat), (Spells.insMC x l).Perm (x :: l)
| [] => List.Perm.refl _
| y :: ys => by
  rw [Spells.insMC]
  by_cases h : y.2 < x.2
  · rw [if_pos h]
  · rw [if_neg h]
    exact ((insMC_perm x ys).cons y).trans (List.Perm.swap x y ys)

theorem mostCommon_foldl_perm : ∀ (c acc : List (Int × Nat)),
    (c.foldl (fun a x => Spells.insMC x a) acc).Perm (acc ++ c)
| [], acc => by simp
| x :: c', acc => by
  rw [List.foldl_cons]
  refine (mostCommon_foldl_perm c' (Spells.insMC x acc)).trans ?_
  refine (((insMC_perm x acc).append_right c')).trans ?_
  exact List.perm_middle.symm

theorem mostCommon_perm (c : List (Int × Nat)) : (Spells.mostCommon c).Perm c := by
  have h := mostCommon_foldl_perm c []
  rw [List.nil_append] at h
  exact h

theorem insMC_sorted {l : List (Int × Nat)} (x : Int × Nat)
    (h : l.Pairwise (fun a b => b.2 ≤ a.2)) :
    (Spells.insMC x l).Pairwise (fun a b => b.2 ≤ a.2) := by
  induction l with
  | nil => simp [Spells.insMC]
  | cons y ys ih =>
    rw [Spells.insMC]
    rcases List.pairwise_cons.mp h with ⟨hy, hys⟩
    by_cases hc : y.2 < x.2
    · rw [if_pos hc]
      refine List.pairwise_cons.mpr ⟨?_, h⟩
      intro z hz
      rcases List.mem_cons.mp hz with rfl | hz'
      · exact Nat.le_of_lt hc
      · exact Nat.le_trans (hy z hz') (Nat.le_of_lt hc)
    · rw [if_neg hc]
      refine List.pairwise_cons.mpr ⟨?_, ih hys⟩
      intro z hz
      rcases List.mem_cons.mp ((insMC_perm x ys).mem_iff.mp hz) with rfl | hz'
      · exact Nat.le_of_not_lt hc
      · exact hy z hz'

theorem mostCommon_sorted (c : List (Int × Nat)) :
    (Spells.mostCommon c).Pairwise (fun a b => b.2 ≤ a.2) := by
  rw [Spells.mostCommon]
  have hgen : ∀ (c' acc : List (Int × Nat)), acc.Pairwise (fun a b => b.2 ≤ a.2) →
      (c'.foldl (fun a x => Spells.insMC x a) acc).Pairwise (fun a b => b.2 ≤ a.2) := by
    intro c'
    induction c' with
    | nil => intro acc h; exact h
    | cons x rest ih => intro acc h; exact ih _ (insMC_sorted x h)
  exact hgen c [] (by simp)

theorem uniqVals_foldl_mem (x : Int) : ∀ (vals acc : List Int),
    (x ∈ vals.foldl Spells.addUniq acc ↔ x ∈ acc ∨ x ∈ vals)
| [], acc => by simp
| v :: rest, acc => by
  rw [List.foldl_cons]
  rw [uniqVals_foldl_mem x rest (Spells.addUniq acc v)]
  have haddu : x ∈ Spells.addUniq acc v ↔ x ∈ acc ∨ x = v := by
    rw [Spells.addUniq]
    by_cases hv : v ∈ acc
    · rw [if_pos hv]
      constructor
      · exact Or.inl
      · rintro (h | rfl)
        · exact h
        · exact hv
    · rw [if_neg hv]
      simp
  rw [haddu]
  simp [or_assoc]

theorem uniqVals_mem (x : Int) (vals : List Int) :
    x ∈ Spells.uniqVals vals ↔ x ∈ vals := by
  rw [Spells.uniqVals, uniqVals_foldl_mem x vals []]
  simp

theorem uniqVals_foldl_nodup : ∀ (vals acc : List Int), acc.Nodup →
    (vals.foldl Spells.addUniq acc).Nodup
| [], acc => fun h => h
| v :: rest, acc => fun h => by
  rw [List.foldl_cons]
  refine uniqVals_foldl_nodup rest (Spells.addUniq acc v) ?_
  rw [Spells.addUniq]
  by_cases hv : v ∈ acc
  · rw [if_pos hv]
    exact h
  · rw [if_neg hv]
    simp [List.nodup_append, h, hv]

theorem uniqVals_nodup (vals : List Int) : (Spells.uniqVals vals).Nodup :=
  uniqVals_foldl_nodup vals [] (by simp)

theorem countsOf_keys (vals : List Int) :
    (Spells.countsOf vals).map (·.1) = Spells.uniqVals vals := by
  rw [Spells.countsOf, List.map_map]
  have hc : ((fun (p : Int × Nat) => p.1) ∘ (fun v => (v, vals.count v))) = fun v => v := rfl
  rw [show ((·.1) : Int × Nat → Int) ∘ (fun v => (v, vals.count v)) = fun v => v from rfl]
  exact List.map_id' (Spells.uniqVals vals)

theorem countsOf_counts (vals : List Int) :
    (Spells.countsOf vals).map (·.2) = (Spells.uniqVals vals).map (fun v => vals.count v) := by
  rw [Spells.countsOf, List.map_map]
  rfl

theorem countsOf_snd (vals : List Int) :
    ∀ p ∈ Spells.countsOf vals, p.2 = vals.count p.1 := by
  intro p hp
  rw [Spells.countsOf, List.mem_map] at hp
  rcases hp with ⟨v, _, rfl⟩
  rfl

theorem sum_uniq_counts (vals : List Int) :
    ((Spells.uniqVals vals).map (fun v => vals.count v)).sum = vals.length := by
  rw [← List.sum_toFinset _ (uniqVals_nodup vals)]
  have hfs : (Spells.uniqVals vals).toFinset = vals.toFinset := by
    apply Finset.ext
    intro a
    simp [List.mem_toFinset, uniqVals_mem]
  rw [hfs]
  exact List.sum_toFinset_count_eq_length vals

theorem foldr_max_le {b : Nat} : ∀ {l : List Nat}, (∀ a ∈ l, a ≤ b) → l.foldr max 0 ≤ b
| [], _ => Nat.zero_le b
| x :: xs, h => by
  rw [List.foldr_cons]
  exact Nat.max_le.mpr ⟨h x (List.mem_cons_self x xs),
    foldr_max_le (fun a ha => h a (List.mem_cons_of_mem x ha))⟩

theorem le_foldr_max {a : Nat} : ∀ {l : List Nat}, a ∈ l → a ≤ l.foldr max 0
| [], h => absurd h (List.not_mem_nil a)
| x :: xs, h => by
  rw [List.foldr_cons]
  rcases List.mem_cons.mp h with rfl | h'
  · exact Nat.le_max_left a _
  · exact Nat.le_trans (le_foldr_max h') (Nat.le_max_right x _)

theorem find?_of_countP_one {α : Type} (p : α → Bool) :
    ∀ (l : List α) (a : α), a ∈ l → p a = true → l.countP p = 1 → l.find? p = some a
| [], a, ha, _, _ => absurd ha (List.not_mem_nil a)
| b :: rest, a, ha, hpa, hcnt => by
  rw [List.countP_cons] at hcnt
  rw [List.find?_cons]
  by_cases hpb : p b = true
  · rw [hpb]
    rw [if_pos hpb] at hcnt
    have hrest : List.countP p rest = 0 := by omega
    rcases List.mem_cons.mp ha with rfl | ha'
    · rfl
    · exfalso
      have : p a ≠ true := List.countP_eq_zero.mp hrest a ha'
      exact this hpa
  · rw [Bool.not_eq_true] at hpb
    rw [hpb]
    rw [hpb] at hcnt
    simp at hcnt
    have ha' : a ∈ rest := by
      rcases List.mem_cons.mp ha with rfl | ha'
      · rw [hpa] at hpb
        exact absurd hpb (by decide)
      · exact ha'
    exact find?_of_countP_one p rest a ha' hpa hcnt

theorem abbrevAll_fst : ∀ ks : List (List Char),
    (Spells.abbrevAll ks).1 = ks.map (fun k => (Spells.abbreviate k).1)
| [] => rfl
| k :: ks => by
  rw [Spells.abbrevAll]
  rcases hab : Spells.abbreviate k with ⟨a, w⟩
  rcases hr : Spells.abbrevAll ks with ⟨rest, ws⟩
  simp only [List.map_cons]
  have h1 := abbrevAll_fst ks
  rw [hr] at h1
  rw [← h1, hab]

theorem levelGroups_fst (classes : List (List Char × Int)) : ∀ Ls : List Int,
    (Spells.levelGroups classes Ls).1 = Ls.map (groupSpec classes)
| [] => rfl
| L :: Ls => by
  have h1 := levelGroups_fst classes Ls
  have h2 := abbrevAll_fst ((classes.filter (fun kv => kv.2 = L)).map (·.1))
  rcases ha : Spells.abbrevAll ((classes.filter (fun kv => kv.2 = L)).map (·.1)) with ⟨cl, w⟩
  rcases hr : Spells.levelGroups classes Ls with ⟨grps, ws⟩
  rw [ha] at h2
  rw [hr] at h1
  have h2x : cl = List.map (fun k => (Spells.abbreviate k).1)
      ((classes.filter (fun kv => kv.2 = L)).map (·.1)) := h2
  have h1x : grps = List.map (groupSpec classes) Ls := h1
  rw [Spells.levelGroups]
  simp only [ha, hr, List.map_cons]
  rw [h2x, h1x, List.map_map]
  rfl

theorem uniqVals_foldl_absorb : ∀ (vs acc : List Int), (∀ y ∈ vs, y ∈ acc) →
    vs.foldl Spells.addUniq acc = acc
| [], _, _ => rfl
| y :: rest, acc, h => by
  rw [List.foldl_cons, Spells.addUniq, if_pos (h y (List.mem_cons_self y rest))]
  exact uniqVals_foldl_absorb rest acc (fun z hz => h z (List.mem_cons_of_mem y hz))

/-- C1: for every non-empty classes dictionary, `_level_from_classes`
returns (without raising) exactly the summary prescribed by the claim:
the bare level when all classes share one level; a main level with a
parenthesized group list when the most frequent level covers at least
half the classes and strictly beats the runner-up; and the bare group
list otherwise.  The claim's three concrete examples are evaluated. -/
theorem c1_level_summary :
    (∀ classes : List (List Char × Int), classes ≠ [] →
      ∃ w, Spells.levelFromClasses classes = .ok (levelSummarySpec classes, w)) ∧
    Spells.levelFromClasses exClasses1 = .ok (JValue.n 1, []) ∧
    Spells.levelFromClasses exClasses2 = .ok (JValue.s "1 (bar 2)".data, []) ∧
    Spells.levelFromClasses exClasses3 = .ok (JValue.s "cle 1, dru 2".data, []) := by
  refine ⟨?_, rfl, rfl, rfl⟩
  intro classes h
  obtain ⟨v, vs, hvals⟩ : ∃ v vs, classes.map (·.2) = v :: vs := by
    cases hc : classes.map (·.2) with
    | nil => exact absurd (List.map_eq_nil_iff.mp hc) h
    | cons a l => exact ⟨a, l, rfl⟩
  have hperm0 : (Spells.mostCommon (Spells.countsOf (v :: vs))).Perm
      (Spells.countsOf (v :: vs)) := mostCommon_perm _
  have hsort0 := mostCommon_sorted (Spells.countsOf (v :: vs))
  rw [Spells.levelFromClasses, levelSummarySpec, hvals]
  simp only []
  cases hmc : Spells.mostCommon (Spells.countsOf (v :: vs)) with
  | nil =>
    exfalso
    rw [hmc] at hperm0
    have hcnil : Spells.countsOf (v :: vs) = [] := List.perm_nil.mp hperm0.symm
    rw [Spells.countsOf] at hcnil
    have huv : Spells.uniqVals (v :: vs) = [] := List.map_eq_nil_iff.mp hcnil
    have hv : v ∈ Spells.uniqVals (v :: vs) :=
      (uniqVals_mem v (v :: vs)).mpr (List.mem_cons_self v vs)
    rw [huv] at hv
    exact List.not_mem_nil v hv
  | cons x1 rest =>
    cases rest with
    | nil =>
      rw [hmc] at hperm0
      have hsing : Spells.countsOf (v :: vs) = [x1] := List.perm_singleton.mp hperm0.symm
      have huniq : Spells.uniqVals (v :: vs) = [x1.1] := by
        rw [← countsOf_keys, hsing]
        rfl
      have hallv : ∀ y ∈ (v :: vs), y = x1.1 := by
        intro y hy
        have hm := (uniqVals_mem y (v :: vs)).mpr hy
        rw [huniq] at hm
        exact List.mem_singleton.mp hm
      have hv1 : v = x1.1 := hallv v (List.mem_cons_self v vs)
      have hall : vs.all (· = v) = true := by
        rw [List.all_eq_true]
        intro y hy
        have hy1 := hallv y (List.mem_cons_of_mem v hy)
        rw [hy1, hv1]
        simp
      refine ⟨[], ?_⟩
      simp only []
      rw [if_pos hall, hv1]
    | cons x2 xs =>
      rw [hmc] at hperm0 hsort0
      rcases List.pairwise_cons.mp hsort0 with ⟨hx1ge, hsort1⟩
      rcases List.pairwise_cons.mp hsort1 with ⟨hx2ge, _⟩
      have hx1mem : x1 ∈ Spells.countsOf (v :: vs) :=
        hperm0.mem_iff.mp (List.mem_cons_self _ _)
      have hx1c : x1.2 = (v :: vs).count x1.1 := countsOf_snd _ x1 hx1mem
      have hx1key : x1.1 ∈ Spells.uniqVals (v :: vs) := by
        rw [← countsOf_keys]
        exact List.mem_map.mpr ⟨x1, hx1mem, rfl⟩
      have hallf : vs.all (· = v) = false := by
        by_contra hcon
        rw [Bool.not_eq_false] at hcon
        have huv : Spells.uniqVals (v :: vs) = [v] := by
          rw [Spells.uniqVals, List.foldl_cons]
          rw [show Spells.addUniq [] v = [v] from rfl]
          refine uniqVals_foldl_absorb vs [v] ?_
          intro y hy
          rw [List.all_eq_true] at hcon
          have hc := hcon y hy
          simp only [decide_eq_true_eq] at hc
          rw [hc]
          exact List.mem_cons_self v []
        have hlen : (Spells.countsOf (v :: vs)).length = 1 := by
          rw [Spells.countsOf, huv]
          rfl
        have hlen2 : (x1 :: x2 :: xs).length = (Spells.countsOf (v :: vs)).length :=
          hperm0.length_eq
        rw [hlen, List.length_cons, List.length_cons] at hlen2
        omega
      have hA : ((Spells.uniqVals (v :: vs)).map (fun l => (v :: vs).count l)).Perm
          ((x1 :: x2 :: xs).map (·.2)) := by
        rw [← countsOf_counts]
        exact hperm0.symm.map _
      have hmax : ((Spells.uniqVals (v :: vs)).map (fun l => (v :: vs).count l)).foldr max 0
          = x1.2 := by
        apply Nat.le_antisymm
        · apply foldr_max_le
          intro a ha
          have ha' : a ∈ (x1 :: x2 :: xs).map (·.2) := hA.mem_iff.mp ha
          rcases List.mem_map.mp ha' with ⟨p, hp, rfl⟩
          rcases List.mem_cons.mp hp with rfl | hp'
          · exact Nat.le_refl _
          · exact hx1ge p hp'
        · exact le_foldr_max (hA.mem_iff.mpr
            (List.mem_map.mpr ⟨x1, List.mem_cons_self _ _, rfl⟩))
      have hsum : ((x1 :: x2 :: xs).map (·.2)).sum = (v :: vs).length := by
        have h1 : ((x1 :: x2 :: xs).map (·.2)).sum
            = ((Spells.countsOf (v :: vs)).map (·.2)).sum := (hperm0.map (·.2)).sum_eq
        rw [h1, countsOf_counts]
        exact sum_uniq_counts (v :: vs)
      have hcntP : List.countP (fun l => decide ((v :: vs).count l = x1.2))
            (Spells.uniqVals (v :: vs))
          = List.countP (fun p => decide (p.2 = x1.2)) (x1 :: x2 :: xs) := by
        calc List.countP (fun l => decide ((v :: vs).count l = x1.2))
              (Spells.uniqVals (v :: vs))
            = List.countP ((fun l => decide ((v :: vs).count l = x1.2)) ∘ (·.1))
                (Spells.countsOf (v :: vs)) := by
              rw [← countsOf_keys, List.countP_map]
          _ = List.countP (fun p => decide (p.2 = x1.2)) (Spells.countsOf (v :: vs)) := by
              apply List.countP_congr
              intro p hp
              have hps := countsOf_snd _ p hp
              simp [Function.comp, hps]
          _ = List.countP (fun p => decide (p.2 = x1.2)) (x1 :: x2 :: xs) :=
              List.Perm.countP_eq _ hperm0.symm
      have hrun : (x2.2 < x1.2) ↔
          List.countP (fun p => decide (p.2 = x1.2)) (x1 :: x2 :: xs) = 1 := by
        constructor
        · intro hlt
          have h0 : List.countP (fun p => decide (p.2 = x1.2)) (x2 :: xs) = 0 := by
            rw [List.countP_eq_zero]
            intro a ha
            simp only [decide_eq_true_eq]
            intro heq
            rcases List.mem_cons.mp ha with rfl | ha'
            · omega
            · have := hx2ge a ha'
              omega
          rw [List.countP_cons, h0]
          simp
        · intro hone
          by_contra hge
          have hx2le : x2.2 ≤ x1.2 := hx1ge x2 (List.mem_cons_self _ _)
          have hx2eq : x2.2 = x1.2 := by omega
          rw [List.countP_cons, List.countP_cons] at hone
          simp [hx2eq] at hone
      simp only []
      rw [if_neg (show ¬((vs.all (· = v)) = true) from by
        rw [hallf]; exact Bool.false_ne_true)]
      simp only [hmax, hcntP, ← hsum, ← hrun]
      by_cases hcond : 2 * x1.2 ≥ ((x1 :: x2 :: xs).map (·.2)).sum ∧ x2.2 < x1.2
      · rw [if_pos hcond, if_pos hcond]
        simp only []
        have hfind : (Spells.uniqVals (v :: vs)).find?
            (fun l => decide ((v :: vs).count l = x1.2)) = some x1.1 := by
          apply find?_of_countP_one
          · exact hx1key
          · simp [← hx1c]
          · rw [hcntP, ← hrun]
            exact hcond.2
        rw [hfind, Option.getD_some]
        simp only [List.map_cons, List.tail_cons]
        have hnd : (x1.1 :: x2.1 :: xs.map (·.1)).Nodup := by
          have hpm : ((x1 :: x2 :: xs).map (·.1)).Perm (Spells.uniqVals (v :: vs)) := by
            rw [← countsOf_keys]
            exact hperm0.map _
          have hnd0 := hpm.nodup_iff.mpr (uniqVals_nodup _)
          simp only [List.map_cons] at hnd0
          exact hnd0
        have hx1not : x1.1 ∉ x2.1 :: xs.map (·.1) := (List.nodup_cons.mp hnd).1
        have hfilter : (x1.1 :: x2.1 :: xs.map (·.1)).filter (· ≠ x1.1)
            = x2.1 :: xs.map (·.1) := by
          have h1 : (x2.1 :: xs.map (·.1)).filter (· ≠ x1.1) = x2.1 :: xs.map (·.1) := by
            rw [List.filter_eq_self]
            intro a ha
            have hne : a ≠ x1.1 := fun he => hx1not (he ▸ ha)
            simp [hne]
          rw [List.filter_cons]
          simp [h1]
          constructor
          · intro he
            rw [← he] at hx1not
            exact hx1not (List.mem_cons_self _ _)
          · intro a b hab he
            rw [← he] at hx1not
            exact hx1not (List.mem_cons_of_mem _ (List.mem_map.mpr ⟨(a, b), hab, rfl⟩))
        rw [hfilter]
        rcases hlg : Spells.levelGroups classes (x2.1 :: xs.map (·.1)) with ⟨grps, ws⟩
        have hg := levelGroups_fst classes (x2.1 :: xs.map (·.1))
        rw [hlg] at hg
        have hgx : grps = (x2.1 :: xs.map (·.1)).map (groupSpec classes) := hg
        refine ⟨ws, ?_⟩
        rw [hlg]
        simp only []
        rw [hgx]
      · rw [if_neg hcond, if_neg hcond]
        simp only [List.map_cons]
        rcases hlg : Spells.levelGroups classes (x1.1 :: x2.1 :: xs.map (·.1)) with ⟨grps, ws⟩
        have hg := levelGroups_fst classes (x1.1 :: x2.1 :: xs.map (·.1))
        rw [hlg] at hg
        have hgx : grps = (x1.1 :: x2.1 :: xs.map (·.1)).map (groupSpec classes) := hg
        refine ⟨ws, ?_⟩
        rw [hlg]
        simp only []
        rw [hgx]
        simp only [List.map_cons]

/-- C1 witness: the general part of the level-summary theorem applied to
the three concrete dictionaries named by the claim. -/
theorem c1_level_summary_witness :
    (∃ w, Spells.levelFromClasses exClasses1 = .ok (levelSummarySpec exClasses1, w)) ∧
    (∃ w, Spells.levelFromClasses exClasses2 = .ok (levelSummarySpec exClasses2, w)) ∧
    (∃ w, Spells.levelFromClasses exClasses3 = .ok (levelSummarySpec exClasses3, w)) :=
  ⟨c1_level_summary.1 exClasses1 (by decide),
   c1_level_summary.1 exClasses2 (by decide),
   c1_level_summary.1 exClasses3 (by decide)⟩
